import Mathlib

/-!
# Verification of `include/optimizer.h`

A shallow embedding of the optimizers of `optimizer.h` and proofs of their
properties.

* Scalars (`Value`, and the `double` momentum coefficient) are an arbitrary
  linearly ordered field `Value`; the square root of `<cmath>` is passed in as
  `sqrt`.  The theorems in exact real arithmetic take `Value := ℝ` and
  `sqrt := Real.sqrt`.
* `Vector<Dimension, Value>` is `Fin Dimension → Value`.
* `size_t` is `Nat` with explicit `% 2 ^ 64` where a subtraction can wrap.
* The calls made on the problem are counted in a `Calls` log that is threaded
  through the code, so that "draws consumed" and "oracle never called" are
  statements about the embedded program.
-/

namespace Optimizer

/-! ## Data model -/

/-- Number of values of `size_t` (64-bit). -/
def SIZE_MODULUS : Nat := 2 ^ 64

/-- The vector type `Vector<Dimension, Value>` of the problem header. -/
abbrev Vector (Dimension : Nat) (Value : Type) : Type := Fin Dimension → Value

/-- Modelled from the spec: the `Problem<Dimension, Value>` collaborator of
`problem.h`, which is not part of the sources.  It supplies the objective
`function`, its `gradient`, the inverse Hessian `ihessian`, and
`bounds().randomPoint()`; the latter is the sequence `randomPoint 0`,
`randomPoint 1`, ... of the points it returns on successive calls. -/
structure Problem (Dimension : Nat) (Value : Type) where
  function : Vector Dimension Value → Value
  gradient : Vector Dimension Value → Vector Dimension Value
  ihessian : Vector Dimension Value → Matrix (Fin Dimension) (Fin Dimension) Value
  randomPoint : Nat → Vector Dimension Value

/-- Log of the calls made on a problem so far. -/
structure Calls where
  randomPoint : Nat
  function : Nat
  gradient : Nat
  ihessian : Nat
deriving DecidableEq, Repr

/-- The empty log. -/
def Calls.none : Calls := ⟨0, 0, 0, 0⟩

/-- The call `problem.bounds().randomPoint()`: the next point of the sequence. -/
def callRandomPoint {Dimension : Nat} {Value : Type} (problem : Problem Dimension Value)
    (c : Calls) : Vector Dimension Value × Calls :=
  (problem.randomPoint c.randomPoint, { c with randomPoint := c.randomPoint + 1 })

/-- The call `problem.function(x)`. -/
def callFunction {Dimension : Nat} {Value : Type} (problem : Problem Dimension Value)
    (x : Vector Dimension Value) (c : Calls) : Value × Calls :=
  (problem.function x, { c with function := c.function + 1 })

/-- The call `problem.gradient(x)`. -/
def callGradient {Dimension : Nat} {Value : Type} (problem : Problem Dimension Value)
    (x : Vector Dimension Value) (c : Calls) : Vector Dimension Value × Calls :=
  (problem.gradient x, { c with gradient := c.gradient + 1 })

/-- The call `problem.ihessian(x)`. -/
def callIhessian {Dimension : Nat} {Value : Type} (problem : Problem Dimension Value)
    (x : Vector Dimension Value) (c : Calls) :
    Matrix (Fin Dimension) (Fin Dimension) Value × Calls :=
  (problem.ihessian x, { c with ihessian := c.ihessian + 1 })

/-! ## RandomGuessing -/

/-- The class `RandomGuessing`: its only member is `_count`. -/
structure RandomGuessing where
  _count : Nat
deriving DecidableEq, Repr

/-- One pass through the body of the loop of `RandomGuessing::optimize`
(lines 130-131), on the current `val` and the log. -/
def RandomGuessing.body {Dimension : Nat} {Value : Type} [LinearOrder Value]
    (problem : Problem Dimension Value) (s : Vector Dimension Value × Calls) :
    Vector Dimension Value × Calls :=
  let val := s.1
  let r := callRandomPoint problem s.2
  let val2 := r.1
  let f2 := callFunction problem val2 r.2
  let f1 := callFunction problem val f2.2
  if f2.1 < f1.1 then (val2, f1.2) else (val, f1.2)

/-- `RandomGuessing::optimize` (lines 127-134).  The loop bound `_count - 1` is
computed in `size_t`, so it wraps to `2 ^ 64 - 1` for `_count = 0`. -/
def RandomGuessing.optimize {Dimension : Nat} {Value : Type} [LinearOrder Value]
    (self : RandomGuessing) (problem : Problem Dimension Value) :
    Vector Dimension Value × Calls :=
  (RandomGuessing.body problem)^[(self._count + SIZE_MODULUS - 1) % SIZE_MODULUS]
    (callRandomPoint problem Calls.none)


/-- The name of `RandomGuessing` (lines 136-138). -/
def RandomGuessing.getName (_self : RandomGuessing) : String := "Random Guessing"

/-! ## MultiplePointRestartAcceleratedGradientDescent -/

/-- The class `MultiplePointRestartAcceleratedGradientDescent`: the number of
restarts `_count` and the number of steps of a restart `_numRepetitions`. -/
structure MultiplePointRestartAcceleratedGradientDescent where
  _count : Nat
  _numRepetitions : Nat
deriving DecidableEq, Repr

/-- The variables `x`, `y`, `t` of a restart that are live between two passes of
the inner loop, and the log.  (`prevX`, `prevY`, `prevT` are overwritten at the
start of every pass, lines 31-33, and are local to `MPRAGD.step`.) -/
structure Momentum (Dimension : Nat) (Value : Type) where
  x : Vector Dimension Value
  y : Vector Dimension Value
  t : Value
  calls : Calls

/-- One pass through the inner loop of accelerated gradient descent
(lines 31-40). -/
def MPRAGD.step {Dimension : Nat} {Value : Type} [LinearOrderedField Value]
    (sqrt : Value → Value) (problem : Problem Dimension Value)
    (s : Momentum Dimension Value) : Momentum Dimension Value :=
  let prevX := s.x
  let prevY := s.y
  let prevT := s.t
  let g := callGradient problem prevY s.calls
  let x := prevY - (0.01 : Value) • g.1
  let t := 0.5 * prevT * (-prevT + sqrt (4 + prevT * prevT))
  let y := x + (prevT * (1 - prevT) / (prevT * prevT + t)) • (x - prevX)
  let g2 := callGradient problem prevY g.2
  let tmp := Matrix.dotProduct (x - prevX) g2.1
  if tmp > 0 then ⟨x, y, 1, g2.2⟩ else ⟨x, y, t, g2.2⟩

/-- The inner loop of a restart (lines 25-41) from the start point `x`. -/
def MPRAGD.inner {Dimension : Nat} {Value : Type} [LinearOrderedField Value]
    (sqrt : Value → Value) (problem : Problem Dimension Value) (numRepetitions : Nat)
    (x : Vector Dimension Value) (c : Calls) : Momentum Dimension Value :=
  (MPRAGD.step sqrt problem)^[numRepetitions] ⟨x, x, 1, c⟩

/-- One pass through the outer loop of accelerated gradient descent
(lines 24-44), on the current `bestX` and the log. -/
def MPRAGD.restart {Dimension : Nat} {Value : Type} [LinearOrderedField Value]
    (sqrt : Value → Value) (problem : Problem Dimension Value) (numRepetitions : Nat)
    (b : Vector Dimension Value × Calls) : Vector Dimension Value × Calls :=
  let bestX := b.1
  let r := callRandomPoint problem b.2
  let s := MPRAGD.inner sqrt problem numRepetitions r.1 r.2
  let fx := callFunction problem s.x s.calls
  let fb := callFunction problem bestX fx.2
  if fx.1 < fb.1 then (s.x, fb.2) else (bestX, fb.2)

/-- `MultiplePointRestartAcceleratedGradientDescent::optimize` (lines 21-48). -/
def MultiplePointRestartAcceleratedGradientDescent.optimize {Dimension : Nat} {Value : Type}
    [LinearOrderedField Value] (self : MultiplePointRestartAcceleratedGradientDescent)
    (sqrt : Value → Value) (problem : Problem Dimension Value) :
    Vector Dimension Value × Calls :=
  (MPRAGD.restart sqrt problem self._numRepetitions)^[self._count]
    (callRandomPoint problem Calls.none)

/-- The name of the accelerated gradient descent (lines 50-52). -/
def MultiplePointRestartAcceleratedGradientDescent.getName
    (_self : MultiplePointRestartAcceleratedGradientDescent) : String :=
  "Stochastic Gradient Descent"

/-! ## GradientDescent -/

/-- The class `GradientDescent`: it holds an accelerated gradient descent. -/
structure GradientDescent where
  _mpragd : MultiplePointRestartAcceleratedGradientDescent
deriving DecidableEq, Repr

/-- The constructor `GradientDescent(numRepetitions)` (line 60). -/
def GradientDescent.new (numRepetitions : Nat) : GradientDescent :=
  ⟨⟨1, numRepetitions⟩⟩

/-- `GradientDescent::optimize` (lines 61-63). -/
def GradientDescent.optimize {Dimension : Nat} {Value : Type} [LinearOrderedField Value]
    (self : GradientDescent) (sqrt : Value → Value) (problem : Problem Dimension Value) :
    Vector Dimension Value × Calls :=
  self._mpragd.optimize sqrt problem

/-- The name of `GradientDescent` (lines 65-67). -/
def GradientDescent.getName (_self : GradientDescent) : String := "Gradient Descent"

/-! ## NewtonsMethod -/

/-- The class `NewtonsMethod`: the number of restarts `_count` and the number
of steps of a restart `_numRepetitions`. -/
structure NewtonsMethod where
  _count : Nat
  _numRepetitions : Nat
deriving DecidableEq, Repr

/-- One pass through the inner loop of Newton's method (line 94). -/
def NewtonsMethod.step {Dimension : Nat} {Value : Type} [LinearOrderedField Value]
    (problem : Problem Dimension Value) (s : Vector Dimension Value × Calls) :
    Vector Dimension Value × Calls :=
  let newVal := s.1
  let h := callIhessian problem newVal s.2
  let g := callGradient problem newVal h.2
  (newVal - Matrix.mulVec h.1 g.1, g.2)

/-- One pass through the outer loop of Newton's method (lines 92-98), on the
current `returnVal` and the log. -/
def NewtonsMethod.restart {Dimension : Nat} {Value : Type} [LinearOrderedField Value]
    (problem : Problem Dimension Value) (numRepetitions : Nat)
    (b : Vector Dimension Value × Calls) : Vector Dimension Value × Calls :=
  let returnVal := b.1
  let r := callRandomPoint problem b.2
  let n := (NewtonsMethod.step problem)^[numRepetitions] r
  let newVal := n.1
  let fn := callFunction problem newVal n.2
  let fr := callFunction problem returnVal fn.2
  if fn.1 < fr.1 then (newVal, fr.2) else (returnVal, fr.2)

/-- `NewtonsMethod::optimize` (lines 89-101). -/
def NewtonsMethod.optimize {Dimension : Nat} {Value : Type} [LinearOrderedField Value]
    (self : NewtonsMethod) (problem : Problem Dimension Value) :
    Vector Dimension Value × Calls :=
  (NewtonsMethod.restart problem self._numRepetitions)^[self._count]
    (callRandomPoint problem Calls.none)

/-- The name of `NewtonsMethod` (lines 104-106). -/
def NewtonsMethod.getName (_self : NewtonsMethod) : String := "Newton's Method"

/-! ## SimulatedAnnealing and InteriorPointsMethod -/

/-- `SimulatedAnnealing::optimize` (lines 74-76). -/
def SimulatedAnnealing.optimize {Dimension : Nat} {Value : Type}
    (problem : Problem Dimension Value) : Vector Dimension Value × Calls :=
  callRandomPoint problem Calls.none

/-- The name of `SimulatedAnnealing` (lines 78-80). -/
def SimulatedAnnealing.getName : String := "Simulated Annealing"

/-- `InteriorPointsMethod::optimize` (lines 113-115). -/
def InteriorPointsMethod.optimize {Dimension : Nat} {Value : Type}
    (problem : Problem Dimension Value) : Vector Dimension Value × Calls :=
  callRandomPoint problem Calls.none

/-- The name of `InteriorPointsMethod` (lines 117-119). -/
def InteriorPointsMethod.getName : String := "Interior Points Method"

/-! ## Concrete problems used to evaluate the code -/

/-- The one-dimensional problem `function(x) = x²` whose draws are `2`, `0.1`
and then `5` for ever. -/
def squareProblem : Problem 1 ℚ where
  function := fun x => x 0 * x 0
  gradient := fun x => fun _ => 2 * x 0
  ihessian := fun _ => fun _ _ => 1 / 2
  randomPoint := fun n => fun _ => if n = 0 then 2 else if n = 1 then 0.1 else 5

/-- The one-dimensional problem `function(x) = x²` whose draws are `1`, `-1`
and then `1` for ever: all of them have the same objective value. -/
def tieProblem : Problem 1 ℚ where
  function := fun x => x 0 * x 0
  gradient := fun x => fun _ => 2 * x 0
  ihessian := fun _ => fun _ _ => 1 / 2
  randomPoint := fun n => fun _ => if n = 0 then 1 else if n = 1 then -1 else 1

/-! ## Construction followed by `optimize`, as a computation that may fail -/

/-- Constructing `RandomGuessing(count)` (line 126) and calling `optimize` on
it (lines 127-134).  Neither the constructor, which only stores `count`, nor
`optimize` has a failing path, so the outcome is always `Except.ok`. -/
def RandomGuessing.run {Dimension : Nat} {Value : Type} [LinearOrder Value]
    (count : Nat) (problem : Problem Dimension Value) :
    Except String (Vector Dimension Value × Calls) :=
  Except.ok ((⟨count⟩ : RandomGuessing).optimize problem)

/-- Constructing `MultiplePointRestartAcceleratedGradientDescent(count,
numRepetitions)` (line 20) and calling `optimize` on it (lines 21-48); there is
no failing path. -/
def MultiplePointRestartAcceleratedGradientDescent.run {Dimension : Nat} {Value : Type}
    [LinearOrderedField Value] (count numRepetitions : Nat) (sqrt : Value → Value)
    (problem : Problem Dimension Value) : Except String (Vector Dimension Value × Calls) :=
  Except.ok ((⟨count, numRepetitions⟩ :
    MultiplePointRestartAcceleratedGradientDescent).optimize sqrt problem)

/-- Constructing `NewtonsMethod(count, numRepetitions)` (line 88) and calling
`optimize` on it (lines 89-101); there is no failing path. -/
def NewtonsMethod.run {Dimension : Nat} {Value : Type} [LinearOrderedField Value]
    (count numRepetitions : Nat) (problem : Problem Dimension Value) :
    Except String (Vector Dimension Value × Calls) :=
  Except.ok ((⟨count, numRepetitions⟩ : NewtonsMethod).optimize problem)

/-! ## The convex quadratic `xᵗx` -/

/-- The problem `function(x) = xᵗx` with `gradient(x) = 2x` and inverse Hessian
`½ I`, on the sequence of draws `draws`. -/
def quadraticProblem {Value : Type} [LinearOrderedField Value] (Dimension : Nat)
    (draws : Nat → Vector Dimension Value) : Problem Dimension Value where
  function := fun x => Matrix.dotProduct x x
  gradient := fun x => (2 : Value) • x
  ihessian := fun _ => (1 / 2 : Value) • (1 : Matrix (Fin Dimension) (Fin Dimension) Value)
  randomPoint := draws

/-- The draws that are all the corner `(10, ..., 10)` of the box `[-10, 10]^d`. -/
def cornerDraws (Value : Type) [LinearOrderedField Value] (Dimension : Nat) :
    Nat → Vector Dimension Value :=
  fun _ _ => 10

/-- One pass of the inner loop of accelerated gradient descent on the quadratic
`xᵗx`, on the coefficients `(a, b, t)` of the state `(a • x0, b • x0, t)`: the
body of `MPRAGD.step` with `gradient(y) = 2y` and the vectors replaced by their
coefficients along the start point `x0`. -/
def Quadratic.coefStep {Value : Type} [LinearOrderedField Value] (sqrt : Value → Value)
    (s : Value × Value × Value) : Value × Value × Value :=
  let prevA := s.1
  let prevB := s.2.1
  let prevT := s.2.2
  let a := prevB - 0.01 * (2 * prevB)
  let t := 0.5 * prevT * (-prevT + sqrt (4 + prevT * prevT))
  let b := a + (prevT * (1 - prevT) / (prevT * prevT + t)) * (a - prevA)
  if (a - prevA) * (2 * prevB) > 0 then (a, b, 1) else (a, b, t)

/-! ## Interval arithmetic for the coefficients on the quadratic -/

/-- Rational endpoints are kept on the grid of multiples of `1 / SCALE`. -/
def Interval.SCALE : ℚ := 2 ^ 320

/-- The largest grid point below `q`. -/
def Interval.roundDown (q : ℚ) : ℚ := (⌊q * Interval.SCALE⌋ : ℤ) / Interval.SCALE

/-- The smallest grid point above `q`. -/
def Interval.roundUp (q : ℚ) : ℚ := (⌈q * Interval.SCALE⌉ : ℤ) / Interval.SCALE

/-- Newton's iteration for the integer square root of `n`, from the guess `x`. -/
def Interval.newtonSqrt : Nat → Nat → Nat → Nat
  | 0, _, x => x
  | f + 1, n, x =>
    if (x + n / x) / 2 < x then Interval.newtonSqrt f n ((x + n / x) / 2) else x

/-- A grid point meant to lie just below the square root of `q`, for `q < 9`;
users check `r * r ≤ q`. -/
def Interval.sqrtDown (q : ℚ) : ℚ :=
  (Interval.newtonSqrt 20 (⌊q * Interval.SCALE * Interval.SCALE⌋).toNat (3 * 2 ^ 320) : ℕ)
    / Interval.SCALE

/-- Rational bounds on the coefficients `(a, b, t)`. -/
structure Interval.Box where
  al : ℚ
  ah : ℚ
  bl : ℚ
  bh : ℚ
  tl : ℚ
  th : ℚ
deriving DecidableEq

/-- The real triple `s` lies in the box `B`. -/
def Interval.Box.Contains (B : Interval.Box) (s : ℝ × ℝ × ℝ) : Prop :=
  (B.al : ℝ) ≤ s.1 ∧ s.1 ≤ (B.ah : ℝ) ∧ (B.bl : ℝ) ≤ s.2.1 ∧ s.2.1 ≤ (B.bh : ℝ) ∧
    (B.tl : ℝ) ≤ s.2.2 ∧ s.2.2 ≤ (B.th : ℝ)

/-- A box around the image of the box `B` under `Quadratic.coefStep`, when the
sign of the restart trigger is the same on all of `B`. -/
def Interval.Box.step (B : Interval.Box) : Option Interval.Box :=
  let nal := Interval.roundDown (98 / 100 * B.bl)
  let nah := Interval.roundUp (98 / 100 * B.bh)
  let sl := Interval.sqrtDown (4 + B.tl * B.tl)
  let sh := Interval.sqrtDown (4 + B.th * B.th) + 1 / Interval.SCALE
  let ntl := Interval.roundDown (1 / 2 * B.tl * (sl - B.th))
  let nth := Interval.roundUp (1 / 2 * B.th * (sh - B.tl))
  let wl := Interval.roundDown (B.tl * (1 - B.th) / (B.th * B.th + nth))
  let wh := Interval.roundUp (B.th * (1 - B.tl) / (B.tl * B.tl + ntl))
  let dl := nal - B.ah
  let dh := nah - B.al
  let nbl := Interval.roundDown (nal + min (wl * dl) (wh * dl))
  let nbh := Interval.roundUp (nah + max (wl * dh) (wh * dh))
  if 0 < B.tl ∧ B.tl ≤ B.th ∧ B.th ≤ 1 ∧ sl * sl ≤ 4 + B.tl * B.tl ∧
      0 ≤ sh ∧ 4 + B.th * B.th ≤ sh * sh ∧ B.th ≤ sl ∧ 0 < ntl ∧ 0 ≤ wl then
    if (0 < dl ∧ 0 < B.bl) ∨ (dh < 0 ∧ B.bh < 0) then some ⟨nal, nah, nbl, nbh, 1, 1⟩
    else if (dh ≤ 0 ∧ 0 ≤ B.bl) ∨ (0 ≤ dl ∧ B.bh ≤ 0) then
      some ⟨nal, nah, nbl, nbh, ntl, nth⟩
    else none
  else none

/-- The box after `n` steps. -/
def Interval.Box.iter : Nat → Interval.Box → Option Interval.Box
  | 0, B => some B
  | n + 1, B =>
    match Interval.Box.step B with
    | some B' => Interval.Box.iter n B'
    | none => none

/-- After `n` steps from the point `(1, 1, 1)` the coefficient `a` is enclosed in
`[lo, hi]`. -/
def Interval.Box.check (n : Nat) (lo hi : ℚ) : Bool :=
  match Interval.Box.iter n ⟨1, 1, 1, 1, 1, 1⟩ with
  | some B => decide (lo ≤ B.al ∧ B.ah ≤ hi)
  | none => false

/-! ## Restarts run in isolation, and the recurrence as the specification words it -/

/-- The candidate of a restart of accelerated gradient descent run in isolation
from the start point `x0`: the final `x` of the inner loop of the code. -/
def MPRAGD.candidate {Dimension : Nat} {Value : Type} [LinearOrderedField Value]
    (sqrt : Value → Value) (problem : Problem Dimension Value) (numRepetitions : Nat)
    (x0 : Vector Dimension Value) : Vector Dimension Value :=
  (MPRAGD.inner sqrt problem numRepetitions x0 Calls.none).x

/-- The candidate of a restart of Newton's method run in isolation from the
start point `x0`: the final `newVal` of the inner loop of the code. -/
def NewtonsMethod.candidate {Dimension : Nat} {Value : Type} [LinearOrderedField Value]
    (problem : Problem Dimension Value) (numRepetitions : Nat)
    (x0 : Vector Dimension Value) : Vector Dimension Value :=
  ((NewtonsMethod.step problem)^[numRepetitions] (x0, Calls.none)).1

/-- The momentum coefficient `t_new = 0.5 · t · (−t + sqrt(4 + t²))` of the
specification. -/
def Spec.tNew {Value : Type} [LinearOrderedField Value] (sqrt : Value → Value) (t : Value) :
    Value :=
  0.5 * t * (-t + sqrt (4 + t ^ 2))

/-- The gradient step `x_new = y − η · gradient(y)` of the specification, with
`η = 0.01`. -/
def Spec.xNew {Dimension : Nat} {Value : Type} [LinearOrderedField Value]
    (gradient : Vector Dimension Value → Vector Dimension Value)
    (y : Vector Dimension Value) : Vector Dimension Value :=
  y - (0.01 : Value) • gradient y

/-- The extrapolation `y_new = x_new + [t·(1−t) / (t² + t_new)] · (x_new − x)`
of the specification. -/
def Spec.yNew {Dimension : Nat} {Value : Type} [LinearOrderedField Value]
    (x xNew : Vector Dimension Value) (t tNew : Value) : Vector Dimension Value :=
  xNew + (t * (1 - t) / (t ^ 2 + tNew)) • (xNew - x)

/-- The step `(x, y, t) ↦ (x_new, y_new, t')` of the specification: `t'` is `1`
when `(x_new − x)ᵗ · gradient(y) > 0` and `t_new` otherwise. -/
def Spec.accelStep {Dimension : Nat} {Value : Type} [LinearOrderedField Value]
    (sqrt : Value → Value) (gradient : Vector Dimension Value → Vector Dimension Value)
    (s : Vector Dimension Value × Vector Dimension Value × Value) :
    Vector Dimension Value × Vector Dimension Value × Value :=
  (Spec.xNew gradient s.2.1,
   Spec.yNew s.1 (Spec.xNew gradient s.2.1) s.2.2 (Spec.tNew sqrt s.2.2),
   if Matrix.dotProduct (Spec.xNew gradient s.2.1 - s.1) (gradient s.2.1) > 0 then 1
   else Spec.tNew sqrt s.2.2)

/-- The sequence `s 0, candidate 1, candidate 2, ...` of the seed draw and the
candidates of the restarts of accelerated gradient descent. -/
def MPRAGD.contender {Dimension : Nat} {Value : Type} [LinearOrderedField Value]
    (sqrt : Value → Value) (problem : Problem Dimension Value) (numRepetitions : Nat)
    (i : Nat) : Vector Dimension Value :=
  if i = 0 then problem.randomPoint 0
  else MPRAGD.candidate sqrt problem numRepetitions (problem.randomPoint i)

/-- The sequence `s 0, candidate 1, candidate 2, ...` of the seed draw and the
candidates of the restarts of Newton's method. -/
def NewtonsMethod.contender {Dimension : Nat} {Value : Type} [LinearOrderedField Value]
    (problem : Problem Dimension Value) (numRepetitions : Nat)
    (i : Nat) : Vector Dimension Value :=
  if i = 0 then problem.randomPoint 0
  else NewtonsMethod.candidate problem numRepetitions (problem.randomPoint i)

/-! ## Further problems and the Newton update of the specification -/

/-- The Newton update `x ↦ x − ihessian(x) · gradient(x)` of the specification. -/
def Spec.newtonMap {Dimension : Nat} {Value : Type} [LinearOrderedField Value]
    (problem : Problem Dimension Value) (x : Vector Dimension Value) : Vector Dimension Value :=
  x - Matrix.mulVec (problem.ihessian x) (problem.gradient x)

/-- A problem whose gradient oracle returns the same vector `g` at every point:
`function(x) = gᵗx`, on the sequence of draws `draws`. -/
def constantGradientProblem {Value : Type} [LinearOrderedField Value] (Dimension : Nat)
    (g : Vector Dimension Value) (draws : Nat → Vector Dimension Value) :
    Problem Dimension Value where
  function := fun x => Matrix.dotProduct g x
  gradient := fun _ => g
  ihessian := fun _ => 0
  randomPoint := draws

/-- The quadratic problem `function(x) = ½ xᵗAx − bᵗx` with
`gradient(x) = Ax − b` and the inverse Hessian `Ainv` at every point, on the
sequence of draws `draws`. -/
def quadraticFormProblem {Value : Type} [LinearOrderedField Value] {Dimension : Nat}
    (A Ainv : Matrix (Fin Dimension) (Fin Dimension) Value) (b : Vector Dimension Value)
    (draws : Nat → Vector Dimension Value) : Problem Dimension Value where
  function := fun x => 1 / 2 * Matrix.dotProduct x (Matrix.mulVec A x) - Matrix.dotProduct b x
  gradient := fun x => Matrix.mulVec A x - b
  ihessian := fun _ => Ainv
  randomPoint := draws

/-! ## Theorems -/

/-- The log only grows by the loop of `RandomGuessing`, and `val` is one of the
points drawn so far, minimal among them and the earliest such. -/
theorem RandomGuessing.guess_loop_spec {Dimension : Nat} {Value : Type} [LinearOrder Value]
    (problem : Problem Dimension Value) (n : Nat) :
    ((RandomGuessing.body problem)^[n] (callRandomPoint problem Calls.none)).2.randomPoint
        = n + 1 ∧
    ∃ j, j < n + 1 ∧
      ((RandomGuessing.body problem)^[n] (callRandomPoint problem Calls.none)).1
        = problem.randomPoint j ∧
      (∀ i, i < n + 1 →
        problem.function (problem.randomPoint j) ≤ problem.function (problem.randomPoint i)) ∧
      (∀ i, i < j →
        problem.function (problem.randomPoint j) < problem.function (problem.randomPoint i)) := by
  induction n with
  | zero =>
    refine ⟨rfl, 0, by omega, rfl, ?_, ?_⟩
    · intro i hi
      have : i = 0 := by omega
      subst this
      exact le_refl _
    · intro i hi
      omega
  | succ n ih =>
    obtain ⟨hc, j, hj, hval, hmin, hfirst⟩ := ih
    rw [Function.iterate_succ_apply']
    generalize (RandomGuessing.body problem)^[n] (callRandomPoint problem Calls.none) = s at *
    obtain ⟨val, c⟩ := s
    simp only at hc hval
    subst hval
    by_cases hlt : problem.function (problem.randomPoint (n + 1))
        < problem.function (problem.randomPoint j)
    · refine ⟨by simp [RandomGuessing.body, callRandomPoint, callFunction, hc, apply_ite], n + 1,
        by omega, ?_, ?_, ?_⟩
      · simp [RandomGuessing.body, callRandomPoint, callFunction, hc, hlt]
      · intro i hi
        rcases Nat.lt_or_ge i (n + 1) with h | h
        · exact le_trans (le_of_lt hlt) (hmin i h)
        · have : i = n + 1 := by omega
          subst this
          exact le_refl _
      · intro i hi
        exact lt_of_lt_of_le hlt (hmin i hi)
    · refine ⟨by simp [RandomGuessing.body, callRandomPoint, callFunction, hc, apply_ite], j,
        by omega, ?_, ?_, hfirst⟩
      · simp [RandomGuessing.body, callRandomPoint, callFunction, hc, hlt]
      · intro i hi
        rcases Nat.lt_or_ge i (n + 1) with h | h
        · exact hmin i h
        · have : i = n + 1 := by omega
          subst this
          exact not_lt.mp hlt

/-- The loop bound `_count - 1` of `RandomGuessing` does not wrap for a
positive `_count` that fits `size_t`. -/
theorem RandomGuessing.bound_of_pos (count : Nat) (h1 : 1 ≤ count) (h2 : count < SIZE_MODULUS) :
    (count + SIZE_MODULUS - 1) % SIZE_MODULUS = count - 1 := by
  unfold SIZE_MODULUS at *
  omega

/-- C1: for every count from 1 up (a `size_t`), every objective function and
every sequence of draws, `RandomGuessing(count).optimize` returns a draw `s j`
with `j < count` whose objective value is at most that of every one of the
first `count` draws. -/
theorem RandomGuessing.optimize_min {Dimension : Nat} {Value : Type} [LinearOrder Value]
    (self : RandomGuessing) (problem : Problem Dimension Value)
    (h1 : 1 ≤ self._count) (h2 : self._count < SIZE_MODULUS) :
    ∃ j, j < self._count ∧
      (self.optimize problem).1 = problem.randomPoint j ∧
      ∀ i, i < self._count →
        problem.function (problem.randomPoint j) ≤ problem.function (problem.randomPoint i) := by
  obtain ⟨-, j, hj, hval, hmin, -⟩ := RandomGuessing.guess_loop_spec problem (self._count - 1)
  have hn : self._count - 1 + 1 = self._count := by omega
  rw [hn] at hj hmin
  refine ⟨j, hj, ?_, hmin⟩
  rw [RandomGuessing.optimize, RandomGuessing.bound_of_pos _ h1 h2]
  exact hval

/-- On the draws `2`, `0.1`, `5` under `function(x) = x²`, `RandomGuessing(3)`
returns `0.1`. -/
theorem RandomGuessing.optimize_squareProblem :
    ((⟨3⟩ : RandomGuessing).optimize squareProblem).1 = fun _ => 0.1 := by
  have h : (3 + SIZE_MODULUS - 1) % SIZE_MODULUS = 2 := by decide
  funext i
  rw [RandomGuessing.optimize, h]
  norm_num [RandomGuessing.body, callRandomPoint, callFunction, Calls.none, squareProblem,
    Function.iterate_succ]

/-- Witness of C1 on the draws `2`, `0.1`, `5` under `function(x) = x²`, with
the point that is returned: `0.1`. -/
theorem RandomGuessing.optimize_min_witness :
    (1 ≤ (⟨3⟩ : RandomGuessing)._count ∧ (⟨3⟩ : RandomGuessing)._count < SIZE_MODULUS) ∧
    (∃ j, j < 3 ∧
      ((⟨3⟩ : RandomGuessing).optimize squareProblem).1 = squareProblem.randomPoint j ∧
      ∀ i, i < 3 →
        squareProblem.function (squareProblem.randomPoint j)
          ≤ squareProblem.function (squareProblem.randomPoint i)) ∧
    ((⟨3⟩ : RandomGuessing).optimize squareProblem).1 = fun _ => 0.1 :=
  ⟨by decide, RandomGuessing.optimize_min ⟨3⟩ squareProblem (by decide) (by decide),
    RandomGuessing.optimize_squareProblem⟩

/-! ### The inner loop of accelerated gradient descent -/

/-- The `x` computed by one pass of the inner loop. -/
theorem MPRAGD.agd_step_x {Dimension : Nat} {Value : Type} [LinearOrderedField Value]
    (sqrt : Value → Value) (problem : Problem Dimension Value) (s : Momentum Dimension Value) :
    (MPRAGD.step sqrt problem s).x = s.y - (0.01 : Value) • problem.gradient s.y := by
  simp only [MPRAGD.step, callGradient]
  split <;> rfl

/-- The `y` computed by one pass of the inner loop. -/
theorem MPRAGD.agd_step_y {Dimension : Nat} {Value : Type} [LinearOrderedField Value]
    (sqrt : Value → Value) (problem : Problem Dimension Value) (s : Momentum Dimension Value) :
    (MPRAGD.step sqrt problem s).y =
      (s.y - (0.01 : Value) • problem.gradient s.y)
        + (s.t * (1 - s.t) / (s.t * s.t + 0.5 * s.t * (-s.t + sqrt (4 + s.t * s.t))))
          • ((s.y - (0.01 : Value) • problem.gradient s.y) - s.x) := by
  simp only [MPRAGD.step, callGradient]
  split <;> rfl

/-- The `t` left by one pass of the inner loop. -/
theorem MPRAGD.agd_step_t {Dimension : Nat} {Value : Type} [LinearOrderedField Value]
    (sqrt : Value → Value) (problem : Problem Dimension Value) (s : Momentum Dimension Value) :
    (MPRAGD.step sqrt problem s).t =
      if Matrix.dotProduct ((s.y - (0.01 : Value) • problem.gradient s.y) - s.x)
          (problem.gradient s.y) > 0
      then 1 else 0.5 * s.t * (-s.t + sqrt (4 + s.t * s.t)) := by
  simp only [MPRAGD.step, callGradient]
  split <;> rfl

/-- One pass of the inner loop calls `gradient` twice and nothing else. -/
theorem MPRAGD.agd_step_calls {Dimension : Nat} {Value : Type} [LinearOrderedField Value]
    (sqrt : Value → Value) (problem : Problem Dimension Value) (s : Momentum Dimension Value) :
    (MPRAGD.step sqrt problem s).calls =
      { s.calls with gradient := s.calls.gradient + 2 } := by
  simp only [MPRAGD.step, callGradient]
  split <;> rfl

/-- The log after the inner loop: `2 * numRepetitions` more calls of `gradient`. -/
theorem MPRAGD.agd_inner_calls {Dimension : Nat} {Value : Type} [LinearOrderedField Value]
    (sqrt : Value → Value) (problem : Problem Dimension Value) (n : Nat)
    (x : Vector Dimension Value) (c : Calls) :
    (MPRAGD.inner sqrt problem n x c).calls = { c with gradient := c.gradient + 2 * n } := by
  induction n with
  | zero => rfl
  | succ n ih =>
    rw [MPRAGD.inner, Function.iterate_succ_apply', ← MPRAGD.inner, MPRAGD.agd_step_calls, ih]
    simp only [Calls.mk.injEq, true_and, and_true]
    omega

/-- The numbers computed by the inner loop do not depend on the log. -/
theorem MPRAGD.agd_inner_log_irrelevant {Dimension : Nat} {Value : Type} [LinearOrderedField Value]
    (sqrt : Value → Value) (problem : Problem Dimension Value) (n : Nat)
    (x : Vector Dimension Value) (c c' : Calls) :
    (MPRAGD.inner sqrt problem n x c).x = (MPRAGD.inner sqrt problem n x c').x ∧
    (MPRAGD.inner sqrt problem n x c).y = (MPRAGD.inner sqrt problem n x c').y ∧
    (MPRAGD.inner sqrt problem n x c).t = (MPRAGD.inner sqrt problem n x c').t := by
  induction n with
  | zero => exact ⟨rfl, rfl, rfl⟩
  | succ n ih =>
    obtain ⟨hx, hy, ht⟩ := ih
    simp only [MPRAGD.inner, Function.iterate_succ_apply'] at hx hy ht ⊢
    simp only [MPRAGD.agd_step_x, MPRAGD.agd_step_y, MPRAGD.agd_step_t, hx, hy, ht, and_self]

/-! ### Best-of loops -/

/-- A loop that draws one point per pass and keeps a strictly better contender
ends on the earliest contender of minimal objective value. -/
theorem bestOf_loop {α Value : Type} [LinearOrder Value] (f : α → Value) (seq : Nat → α)
    (R : α × Calls → α × Calls) (init : α × Calls)
    (hinit : init.2.randomPoint = 1) (hseq : init.1 = seq 0)
    (hdraw : ∀ b, (R b).2.randomPoint = b.2.randomPoint + 1)
    (hkeep : ∀ b, 1 ≤ b.2.randomPoint → (R b).1 =
      if f (seq b.2.randomPoint) < f b.1 then seq b.2.randomPoint else b.1)
    (k : Nat) :
    (R^[k] init).2.randomPoint = k + 1 ∧
    ∃ j, j ≤ k ∧ (R^[k] init).1 = seq j ∧
      (∀ i, i ≤ k → f (seq j) ≤ f (seq i)) ∧ (∀ i, i < j → f (seq j) < f (seq i)) := by
  induction k with
  | zero =>
    refine ⟨hinit, 0, le_refl _, hseq, ?_, ?_⟩
    · intro i hi
      have : i = 0 := by omega
      subst this
      exact le_refl _
    · intro i hi
      omega
  | succ k ih =>
    obtain ⟨hc, j, hj, hval, hmin, hfirst⟩ := ih
    rw [Function.iterate_succ_apply']
    generalize R^[k] init = b at *
    have hk := hkeep b (by omega)
    rw [hc, hval] at hk
    refine ⟨by rw [hdraw, hc], ?_⟩
    by_cases hlt : f (seq (k + 1)) < f (seq j)
    · rw [if_pos hlt] at hk
      refine ⟨k + 1, le_refl _, hk, ?_, ?_⟩
      · intro i hi
        rcases Nat.lt_or_ge i (k + 1) with h | h
        · exact le_trans (le_of_lt hlt) (hmin i (by omega))
        · have : i = k + 1 := by omega
          subst this
          exact le_refl _
      · intro i hi
        exact lt_of_lt_of_le hlt (hmin i (by omega))
    · rw [if_neg hlt] at hk
      refine ⟨j, by omega, hk, ?_, hfirst⟩
      intro i hi
      rcases Nat.lt_or_ge i (k + 1) with h | h
      · exact hmin i (by omega)
      · have : i = k + 1 := by omega
        subst this
        exact not_lt.mp hlt

/-- The point kept by one pass of the outer loop of accelerated gradient
descent. -/
theorem MPRAGD.agd_restart_fst {Dimension : Nat} {Value : Type} [LinearOrderedField Value]
    (sqrt : Value → Value) (problem : Problem Dimension Value) (n : Nat)
    (b : Vector Dimension Value × Calls) :
    (MPRAGD.restart sqrt problem n b).1 =
      if problem.function
          (MPRAGD.candidate sqrt problem n (problem.randomPoint b.2.randomPoint))
          < problem.function b.1
      then MPRAGD.candidate sqrt problem n (problem.randomPoint b.2.randomPoint) else b.1 := by
  have hx := (MPRAGD.agd_inner_log_irrelevant sqrt problem n (problem.randomPoint b.2.randomPoint)
    (callRandomPoint problem b.2).2 Calls.none).1
  simp only [MPRAGD.restart, MPRAGD.candidate, callFunction, callRandomPoint] at hx ⊢
  rw [hx]
  split <;> rfl

/-- The log after one pass of the outer loop of accelerated gradient descent. -/
theorem MPRAGD.agd_restart_calls {Dimension : Nat} {Value : Type} [LinearOrderedField Value]
    (sqrt : Value → Value) (problem : Problem Dimension Value) (n : Nat)
    (b : Vector Dimension Value × Calls) :
    (MPRAGD.restart sqrt problem n b).2 =
      ⟨b.2.randomPoint + 1, b.2.function + 2, b.2.gradient + 2 * n, b.2.ihessian⟩ := by
  simp only [MPRAGD.restart, callFunction, callRandomPoint, MPRAGD.agd_inner_calls]
  split <;> rfl

/-- The log after `k` restarts of accelerated gradient descent. -/
theorem MPRAGD.agd_loop_calls {Dimension : Nat} {Value : Type} [LinearOrderedField Value]
    (sqrt : Value → Value) (problem : Problem Dimension Value) (n k : Nat) :
    ((MPRAGD.restart sqrt problem n)^[k] (callRandomPoint problem Calls.none)).2 =
      ⟨k + 1, 2 * k, 2 * n * k, 0⟩ := by
  induction k with
  | zero => rfl
  | succ k ih =>
    rw [Function.iterate_succ_apply', MPRAGD.agd_restart_calls, ih]
    simp only [Calls.mk.injEq, and_true, true_and]
    constructor
    · ring
    · ring

/-- After `k` restarts accelerated gradient descent holds the earliest
contender of minimal objective value among the seed and the `k` candidates. -/
theorem MPRAGD.agd_loop_spec {Dimension : Nat} {Value : Type} [LinearOrderedField Value]
    (sqrt : Value → Value) (problem : Problem Dimension Value) (n k : Nat) :
    ∃ j, j ≤ k ∧
      ((MPRAGD.restart sqrt problem n)^[k] (callRandomPoint problem Calls.none)).1
        = MPRAGD.contender sqrt problem n j ∧
      (∀ i, i ≤ k → problem.function (MPRAGD.contender sqrt problem n j)
        ≤ problem.function (MPRAGD.contender sqrt problem n i)) ∧
      (∀ i, i < j → problem.function (MPRAGD.contender sqrt problem n j)
        < problem.function (MPRAGD.contender sqrt problem n i)) := by
  refine (bestOf_loop problem.function (MPRAGD.contender sqrt problem n)
    (MPRAGD.restart sqrt problem n) (callRandomPoint problem Calls.none) rfl rfl ?_ ?_ k).2
  · intro b
    rw [MPRAGD.agd_restart_calls]
  · intro b hb
    have h0 : ¬ b.2.randomPoint = 0 := by omega
    rw [MPRAGD.agd_restart_fst]
    simp only [MPRAGD.contender, if_neg h0]

/-! ### The loops of Newton's method -/

/-- The point computed by one Newton step. -/
theorem NewtonsMethod.newton_step_fst {Dimension : Nat} {Value : Type} [LinearOrderedField Value]
    (problem : Problem Dimension Value) (s : Vector Dimension Value × Calls) :
    (NewtonsMethod.step problem s).1 =
      s.1 - Matrix.mulVec (problem.ihessian s.1) (problem.gradient s.1) := rfl

/-- One Newton step calls `ihessian` once and `gradient` once. -/
theorem NewtonsMethod.newton_step_calls {Dimension : Nat} {Value : Type} [LinearOrderedField Value]
    (problem : Problem Dimension Value) (s : Vector Dimension Value × Calls) :
    (NewtonsMethod.step problem s).2 =
      ⟨s.2.randomPoint, s.2.function, s.2.gradient + 1, s.2.ihessian + 1⟩ := rfl

/-- The log after the inner loop of Newton's method. -/
theorem NewtonsMethod.newton_inner_calls {Dimension : Nat} {Value : Type} [LinearOrderedField Value]
    (problem : Problem Dimension Value) (n : Nat) (s : Vector Dimension Value × Calls) :
    ((NewtonsMethod.step problem)^[n] s).2 =
      ⟨s.2.randomPoint, s.2.function, s.2.gradient + n, s.2.ihessian + n⟩ := by
  induction n with
  | zero => rfl
  | succ n ih =>
    rw [Function.iterate_succ_apply', NewtonsMethod.newton_step_calls, ih]
    simp only [Calls.mk.injEq, true_and]
    omega

/-- The point computed by the inner loop of Newton's method does not depend on
the log. -/
theorem NewtonsMethod.newton_inner_log_irrelevant {Dimension : Nat} {Value : Type}
    [LinearOrderedField Value] (problem : Problem Dimension Value) (n : Nat)
    (x : Vector Dimension Value) (c c' : Calls) :
    ((NewtonsMethod.step problem)^[n] (x, c)).1 = ((NewtonsMethod.step problem)^[n] (x, c')).1 := by
  induction n with
  | zero => rfl
  | succ n ih =>
    simp only [Function.iterate_succ_apply', NewtonsMethod.newton_step_fst, ih]

/-- The point kept by one pass of the outer loop of Newton's method. -/
theorem NewtonsMethod.newton_restart_fst {Dimension : Nat} {Value : Type} [LinearOrderedField Value]
    (problem : Problem Dimension Value) (n : Nat) (b : Vector Dimension Value × Calls) :
    (NewtonsMethod.restart problem n b).1 =
      if problem.function
          (NewtonsMethod.candidate problem n (problem.randomPoint b.2.randomPoint))
          < problem.function b.1
      then NewtonsMethod.candidate problem n (problem.randomPoint b.2.randomPoint) else b.1 := by
  have hx := NewtonsMethod.newton_inner_log_irrelevant problem n (problem.randomPoint b.2.randomPoint)
    (callRandomPoint problem b.2).2 Calls.none
  simp only [NewtonsMethod.restart, NewtonsMethod.candidate, callFunction, callRandomPoint]
    at hx ⊢
  rw [hx]
  split <;> rfl

/-- The log after one pass of the outer loop of Newton's method. -/
theorem NewtonsMethod.newton_restart_calls {Dimension : Nat} {Value : Type} [LinearOrderedField Value]
    (problem : Problem Dimension Value) (n : Nat) (b : Vector Dimension Value × Calls) :
    (NewtonsMethod.restart problem n b).2 =
      ⟨b.2.randomPoint + 1, b.2.function + 2, b.2.gradient + n, b.2.ihessian + n⟩ := by
  simp only [NewtonsMethod.restart, callFunction, callRandomPoint, NewtonsMethod.newton_inner_calls]
  split <;> rfl

/-- The log after `k` restarts of Newton's method. -/
theorem NewtonsMethod.newton_loop_calls {Dimension : Nat} {Value : Type} [LinearOrderedField Value]
    (problem : Problem Dimension Value) (n k : Nat) :
    ((NewtonsMethod.restart problem n)^[k] (callRandomPoint problem Calls.none)).2 =
      ⟨k + 1, 2 * k, n * k, n * k⟩ := by
  induction k with
  | zero => rfl
  | succ k ih =>
    rw [Function.iterate_succ_apply', NewtonsMethod.newton_restart_calls, ih]
    simp only [Calls.mk.injEq, and_true, true_and]
    refine ⟨by ring, by ring, by ring⟩

/-- After `k` restarts Newton's method holds the earliest contender of minimal
objective value among the seed and the `k` candidates. -/
theorem NewtonsMethod.newton_loop_spec {Dimension : Nat} {Value : Type} [LinearOrderedField Value]
    (problem : Problem Dimension Value) (n k : Nat) :
    ∃ j, j ≤ k ∧
      ((NewtonsMethod.restart problem n)^[k] (callRandomPoint problem Calls.none)).1
        = NewtonsMethod.contender problem n j ∧
      (∀ i, i ≤ k → problem.function (NewtonsMethod.contender problem n j)
        ≤ problem.function (NewtonsMethod.contender problem n i)) ∧
      (∀ i, i < j → problem.function (NewtonsMethod.contender problem n j)
        < problem.function (NewtonsMethod.contender problem n i)) := by
  refine (bestOf_loop problem.function (NewtonsMethod.contender problem n)
    (NewtonsMethod.restart problem n) (callRandomPoint problem Calls.none) rfl rfl ?_ ?_ k).2
  · intro b
    rw [NewtonsMethod.newton_restart_calls]
  · intro b hb
    have h0 : ¬ b.2.randomPoint = 0 := by omega
    rw [NewtonsMethod.newton_restart_fst]
    simp only [NewtonsMethod.contender, if_neg h0]

/-! ### Claims on the restart loops -/

/-- C2: best of `k` restarts.  For accelerated gradient descent and for Newton's
method with `k > 1` restarts, for every problem and every sequence of draws,
the objective value of the returned point is at most the objective value of
the candidate of restart `i` (run from the draw `s i`), for each `1 ≤ i ≤ k`. -/
theorem optimize_best_of_restarts {Dimension : Nat} {Value : Type} [LinearOrderedField Value]
    (sqrt : Value → Value) (problem : Problem Dimension Value) (k n : Nat) (hk : 1 < k)
    (i : Nat) (hi1 : 1 ≤ i) (hik : i ≤ k) :
    problem.function
        ((⟨k, n⟩ : MultiplePointRestartAcceleratedGradientDescent).optimize sqrt problem).1
      ≤ problem.function (MPRAGD.candidate sqrt problem n (problem.randomPoint i)) ∧
    problem.function ((⟨k, n⟩ : NewtonsMethod).optimize problem).1
      ≤ problem.function (NewtonsMethod.candidate problem n (problem.randomPoint i)) := by
  have _ := hk
  have h0 : ¬ i = 0 := by omega
  constructor
  · obtain ⟨j, -, hval, hmin, -⟩ := MPRAGD.agd_loop_spec sqrt problem n k
    have h := hmin i hik
    rw [← hval] at h
    simpa only [MPRAGD.contender, if_neg h0] using h
  · obtain ⟨j, -, hval, hmin, -⟩ := NewtonsMethod.newton_loop_spec problem n k
    have h := hmin i hik
    rw [← hval] at h
    simpa only [NewtonsMethod.contender, if_neg h0] using h

/-- Witness of C2: two restarts of one step on `squareProblem`, second restart. -/
theorem optimize_best_of_restarts_witness :
    (1 < 2 ∧ 1 ≤ 2 ∧ 2 ≤ 2) ∧
    squareProblem.function
        ((⟨2, 1⟩ : MultiplePointRestartAcceleratedGradientDescent).optimize
          (fun v => v) squareProblem).1
      ≤ squareProblem.function
        (MPRAGD.candidate (fun v => v) squareProblem 1 (squareProblem.randomPoint 2)) ∧
    squareProblem.function ((⟨2, 1⟩ : NewtonsMethod).optimize squareProblem).1
      ≤ squareProblem.function
        (NewtonsMethod.candidate squareProblem 1 (squareProblem.randomPoint 2)) :=
  ⟨by decide, optimize_best_of_restarts (fun v => v) squareProblem 2 1 (by decide) 2
    (by decide) (by decide)⟩

/-- The code's `prevT * prevT` is the `t²` of the specification. -/
theorem Spec.tNew_eq {Value : Type} [LinearOrderedField Value] (sqrt : Value → Value)
    (t : Value) : 0.5 * t * (-t + sqrt (4 + t * t)) = Spec.tNew sqrt t := by
  rw [Spec.tNew, pow_two]

/-- The state after one pass of the inner loop is the step of the
specification. -/
theorem MPRAGD.step_eq_accelStep {Dimension : Nat} {Value : Type} [LinearOrderedField Value]
    (sqrt : Value → Value) (problem : Problem Dimension Value) (s : Momentum Dimension Value) :
    ((MPRAGD.step sqrt problem s).x, (MPRAGD.step sqrt problem s).y,
      (MPRAGD.step sqrt problem s).t) = Spec.accelStep sqrt problem.gradient (s.x, s.y, s.t) := by
  rw [MPRAGD.agd_step_x, MPRAGD.agd_step_y, MPRAGD.agd_step_t, Spec.tNew_eq]
  simp only [Spec.accelStep, Spec.xNew, Spec.yNew, pow_two]

/-- The state after the inner loop is the iterated step of the specification. -/
theorem MPRAGD.inner_eq_accelStep {Dimension : Nat} {Value : Type} [LinearOrderedField Value]
    (sqrt : Value → Value) (problem : Problem Dimension Value) (n : Nat)
    (x0 : Vector Dimension Value) (c : Calls) :
    ((MPRAGD.inner sqrt problem n x0 c).x, (MPRAGD.inner sqrt problem n x0 c).y,
      (MPRAGD.inner sqrt problem n x0 c).t)
      = (Spec.accelStep sqrt problem.gradient)^[n] (x0, x0, 1) := by
  induction n with
  | zero => rfl
  | succ n ih =>
    rw [Function.iterate_succ_apply' (Spec.accelStep sqrt problem.gradient), ← ih, MPRAGD.inner,
      Function.iterate_succ_apply', MPRAGD.step_eq_accelStep]
    rfl

/-- C3: momentum recurrence.  One pass of the inner loop maps `(x, y, t)` to
`x_new = y - 0.01 * gradient(y)` and
`y_new = x_new + [t (1 - t) / (t² + t_new)] (x_new - x)` with the un-reset
`t_new = 0.5 t (-t + sqrt(4 + t²))`; the state after the inner loop is the
step of the specification iterated `numRepetitions` times from `(x0, x0, 1)`;
and the point a restart compares against `bestX` is the `x` of that state. -/
theorem MPRAGD.momentum_recurrence {Dimension : Nat} {Value : Type} [LinearOrderedField Value]
    (sqrt : Value → Value) (problem : Problem Dimension Value) :
    (∀ s : Momentum Dimension Value,
      (MPRAGD.step sqrt problem s).x = Spec.xNew problem.gradient s.y ∧
      (MPRAGD.step sqrt problem s).y =
        Spec.yNew s.x (Spec.xNew problem.gradient s.y) s.t (Spec.tNew sqrt s.t)) ∧
    (∀ (n : Nat) (x0 : Vector Dimension Value) (c : Calls),
      ((MPRAGD.inner sqrt problem n x0 c).x, (MPRAGD.inner sqrt problem n x0 c).y,
        (MPRAGD.inner sqrt problem n x0 c).t)
        = (Spec.accelStep sqrt problem.gradient)^[n] (x0, x0, 1)) ∧
    (∀ (n : Nat) (b : Vector Dimension Value × Calls),
      (MPRAGD.restart sqrt problem n b).1 =
        if problem.function ((Spec.accelStep sqrt problem.gradient)^[n]
              (problem.randomPoint b.2.randomPoint, problem.randomPoint b.2.randomPoint, 1)).1
            < problem.function b.1
        then ((Spec.accelStep sqrt problem.gradient)^[n]
              (problem.randomPoint b.2.randomPoint, problem.randomPoint b.2.randomPoint, 1)).1
        else b.1) := by
  refine ⟨?_, MPRAGD.inner_eq_accelStep sqrt problem, ?_⟩
  · intro s
    have h := MPRAGD.step_eq_accelStep sqrt problem s
    simp only [Spec.accelStep, Prod.mk.injEq] at h
    exact ⟨h.1, h.2.1⟩
  · intro n b
    rw [MPRAGD.agd_restart_fst, MPRAGD.candidate,
      ← MPRAGD.inner_eq_accelStep sqrt problem n _ Calls.none]

/-- C4: momentum restart trigger.  In every pass of the inner loop the
coefficient carried on is `1` if `(x_new - x)ᵗ gradient(y) > 0` and `t_new`
otherwise, and `x_new`, `y_new` are the same in both cases. -/
theorem MPRAGD.restart_trigger {Dimension : Nat} {Value : Type} [LinearOrderedField Value]
    (sqrt : Value → Value) (problem : Problem Dimension Value) (s : Momentum Dimension Value) :
    (Matrix.dotProduct (Spec.xNew problem.gradient s.y - s.x) (problem.gradient s.y) > 0 →
      MPRAGD.step sqrt problem s =
        ⟨Spec.xNew problem.gradient s.y,
         Spec.yNew s.x (Spec.xNew problem.gradient s.y) s.t (Spec.tNew sqrt s.t),
         1, { s.calls with gradient := s.calls.gradient + 2 }⟩) ∧
    (¬ Matrix.dotProduct (Spec.xNew problem.gradient s.y - s.x) (problem.gradient s.y) > 0 →
      MPRAGD.step sqrt problem s =
        ⟨Spec.xNew problem.gradient s.y,
         Spec.yNew s.x (Spec.xNew problem.gradient s.y) s.t (Spec.tNew sqrt s.t),
         Spec.tNew sqrt s.t, { s.calls with gradient := s.calls.gradient + 2 }⟩) := by
  constructor
  · intro h
    simp only [Spec.xNew] at h
    simp only [MPRAGD.step, callGradient, if_pos h, Spec.xNew, Spec.yNew, Spec.tNew, pow_two]
  · intro h
    simp only [Spec.xNew] at h
    simp only [MPRAGD.step, callGradient, if_neg h, Spec.xNew, Spec.yNew, Spec.tNew, pow_two]

/-- C5: single-restart equivalence.  For every number of steps, every problem
and every sequence of draws, `GradientDescent(steps).optimize` returns exactly
what `MultiplePointRestartAcceleratedGradientDescent(1, steps).optimize`
returns (the point and the log of calls). -/
theorem GradientDescent.optimize_eq {Dimension : Nat} {Value : Type} [LinearOrderedField Value]
    (steps : Nat) (sqrt : Value → Value) (problem : Problem Dimension Value) :
    (GradientDescent.new steps).optimize sqrt problem =
      (⟨1, steps⟩ : MultiplePointRestartAcceleratedGradientDescent).optimize sqrt problem := rfl

/-- C6: zero-iteration identity.  With `numRepetitions = 0`, for every restart
count `k`, every problem and every sequence of draws, accelerated gradient
descent and Newton's method each return one of the draws `s j`, `j ≤ k`,
unmodified, and the log records no call of `gradient` or `ihessian`. -/
theorem optimize_zero_steps {Dimension : Nat} {Value : Type} [LinearOrderedField Value]
    (sqrt : Value → Value) (problem : Problem Dimension Value) (k : Nat) :
    ((∃ j, j ≤ k ∧
        ((⟨k, 0⟩ : MultiplePointRestartAcceleratedGradientDescent).optimize sqrt problem).1
          = problem.randomPoint j) ∧
      ((⟨k, 0⟩ : MultiplePointRestartAcceleratedGradientDescent).optimize
          sqrt problem).2.gradient = 0 ∧
      ((⟨k, 0⟩ : MultiplePointRestartAcceleratedGradientDescent).optimize
          sqrt problem).2.ihessian = 0) ∧
    ((∃ j, j ≤ k ∧ ((⟨k, 0⟩ : NewtonsMethod).optimize problem).1 = problem.randomPoint j) ∧
      ((⟨k, 0⟩ : NewtonsMethod).optimize problem).2.gradient = 0 ∧
      ((⟨k, 0⟩ : NewtonsMethod).optimize problem).2.ihessian = 0) := by
  refine ⟨⟨?_, ?_, ?_⟩, ⟨?_, ?_, ?_⟩⟩
  · obtain ⟨j, hj, hval, -, -⟩ := MPRAGD.agd_loop_spec sqrt problem 0 k
    refine ⟨j, hj, ?_⟩
    rw [MultiplePointRestartAcceleratedGradientDescent.optimize, hval, MPRAGD.contender]
    split
    · next h => rw [h]
    · rfl
  · rw [MultiplePointRestartAcceleratedGradientDescent.optimize, MPRAGD.agd_loop_calls]
    simp
  · rw [MultiplePointRestartAcceleratedGradientDescent.optimize, MPRAGD.agd_loop_calls]
  · obtain ⟨j, hj, hval, -, -⟩ := NewtonsMethod.newton_loop_spec problem 0 k
    refine ⟨j, hj, ?_⟩
    rw [NewtonsMethod.optimize, hval, NewtonsMethod.contender]
    split
    · next h => rw [h]
    · rfl
  · rw [NewtonsMethod.optimize, NewtonsMethod.newton_loop_calls]
    simp
  · rw [NewtonsMethod.optimize, NewtonsMethod.newton_loop_calls]
    simp

/-- C8: tie-break of `RandomGuessing`.  For every count from 1 up and every
sequence of draws, the returned point is a draw `s j`, `j < count`, of minimal
objective value among the first `count` draws, and every earlier draw has a
strictly larger objective value: the earliest minimal draw is returned. -/
theorem RandomGuessing.optimize_first_min {Dimension : Nat} {Value : Type} [LinearOrder Value]
    (self : RandomGuessing) (problem : Problem Dimension Value)
    (h1 : 1 ≤ self._count) (h2 : self._count < SIZE_MODULUS) :
    ∃ j, j < self._count ∧
      (self.optimize problem).1 = problem.randomPoint j ∧
      (∀ i, i < self._count →
        problem.function (problem.randomPoint j) ≤ problem.function (problem.randomPoint i)) ∧
      (∀ i, i < j →
        problem.function (problem.randomPoint i) > problem.function (problem.randomPoint j)) := by
  obtain ⟨-, j, hj, hval, hmin, hfirst⟩ := RandomGuessing.guess_loop_spec problem (self._count - 1)
  have hn : self._count - 1 + 1 = self._count := by omega
  rw [hn] at hj hmin
  refine ⟨j, hj, ?_, hmin, hfirst⟩
  rw [RandomGuessing.optimize, RandomGuessing.bound_of_pos _ h1 h2]
  exact hval

/-- On three draws `1`, `-1`, `1` of equal objective value `RandomGuessing(3)`
returns the first draw. -/
theorem RandomGuessing.optimize_tieProblem :
    ((⟨3⟩ : RandomGuessing).optimize tieProblem).1 = tieProblem.randomPoint 0 := by
  have h : (3 + SIZE_MODULUS - 1) % SIZE_MODULUS = 2 := by decide
  funext i
  rw [RandomGuessing.optimize, h]
  norm_num [RandomGuessing.body, callRandomPoint, callFunction, Calls.none, tieProblem,
    Function.iterate_succ]

/-- Witness of C8 on three draws of equal objective value: the first one is
returned. -/
theorem RandomGuessing.optimize_first_min_witness :
    (1 ≤ (⟨3⟩ : RandomGuessing)._count ∧ (⟨3⟩ : RandomGuessing)._count < SIZE_MODULUS) ∧
    (∃ j, j < 3 ∧
      ((⟨3⟩ : RandomGuessing).optimize tieProblem).1 = tieProblem.randomPoint j ∧
      (∀ i, i < 3 →
        tieProblem.function (tieProblem.randomPoint j)
          ≤ tieProblem.function (tieProblem.randomPoint i)) ∧
      (∀ i, i < j →
        tieProblem.function (tieProblem.randomPoint i)
          > tieProblem.function (tieProblem.randomPoint j))) ∧
    ((⟨3⟩ : RandomGuessing).optimize tieProblem).1 = tieProblem.randomPoint 0 :=
  ⟨by decide, RandomGuessing.optimize_first_min ⟨3⟩ tieProblem (by decide) (by decide),
    RandomGuessing.optimize_tieProblem⟩

/-! ### Zero counts -/

/-- C9 (defect of the code): `RandomGuessing(0)` is not rejected.  On
`squareProblem`, constructing `RandomGuessing(0)` and calling `optimize` takes
no failing path, and the loop bound `_count - 1` of line 129 wraps to
`2 ^ 64 - 1`: `optimize` is the first draw followed by `2 ^ 64 - 1` passes
through the loop body, where the claim demands an "invalid configuration"
error and neither zero nor underflowed passes. -/
theorem RandomGuessing.zero_count_underflow :
    (0 + SIZE_MODULUS - 1) % SIZE_MODULUS = 2 ^ 64 - 1 ∧
    (∀ e, RandomGuessing.run 0 squareProblem ≠ Except.error e) ∧
    (⟨0⟩ : RandomGuessing).optimize squareProblem
      = (RandomGuessing.body squareProblem)^[2 ^ 64 - 1]
          (callRandomPoint squareProblem Calls.none) := by
  have hb : (0 + SIZE_MODULUS - 1) % SIZE_MODULUS = 2 ^ 64 - 1 := by decide
  refine ⟨hb, fun e h => by simp [RandomGuessing.run] at h, ?_⟩
  rw [RandomGuessing.optimize]
  simp only [hb]

/-- Counterexample to C10: on `squareProblem`, accelerated gradient descent
and Newton's method constructed with zero restarts do not fail; `optimize`
returns the first draw after zero passes through the outer loop. -/
theorem restarts_zero_not_rejected :
    MultiplePointRestartAcceleratedGradientDescent.run 0 3 (fun v => v) squareProblem
      = Except.ok (squareProblem.randomPoint 0, ⟨1, 0, 0, 0⟩) ∧
    NewtonsMethod.run 0 3 squareProblem
      = Except.ok (squareProblem.randomPoint 0, ⟨1, 0, 0, 0⟩) :=
  ⟨rfl, rfl⟩

/-- C10, amended: the restart-based optimizers have no "invalid configuration"
error.  For every restart count, zero included, constructing accelerated
gradient descent or Newton's method and calling `optimize` succeeds, and with
zero restarts the point returned is the seed draw. -/
theorem restarts_run_ok {Dimension : Nat} {Value : Type} [LinearOrderedField Value]
    (count numRepetitions : Nat) (sqrt : Value → Value) (problem : Problem Dimension Value) :
    (∃ v, MultiplePointRestartAcceleratedGradientDescent.run count numRepetitions sqrt problem
        = Except.ok v ∧ (count = 0 → v.1 = problem.randomPoint 0)) ∧
    (∃ v, NewtonsMethod.run count numRepetitions problem = Except.ok v ∧
        (count = 0 → v.1 = problem.randomPoint 0)) := by
  refine ⟨⟨_, rfl, ?_⟩, ⟨_, rfl, ?_⟩⟩
  · intro h
    subst h
    rfl
  · intro h
    subst h
    rfl

/-! ### Accelerated gradient descent on the quadratic `xᵗx` -/

/-- Rounding down does not increase. -/
theorem Interval.roundDown_le (q : ℚ) : Interval.roundDown q ≤ q := by
  have hS : (0 : ℚ) < Interval.SCALE := by norm_num [Interval.SCALE]
  rw [Interval.roundDown, div_le_iff₀ hS]
  exact Int.floor_le _

/-- Rounding up does not decrease. -/
theorem Interval.le_roundUp (q : ℚ) : q ≤ Interval.roundUp q := by
  have hS : (0 : ℚ) < Interval.SCALE := by norm_num [Interval.SCALE]
  rw [Interval.roundUp, le_div_iff₀ hS]
  exact Int.le_ceil _

/-- Bounds on one pass of the inner loop on the quadratic, from bounds on the
coefficients before the pass: the real-number content of `Interval.Box.step`. -/
theorem Quadratic.coefStep_bounds (a b t al ah bl bh tl th sl sh nal nah ntl nth wl wh nbl nbh : ℝ)
    (ha : al ≤ a ∧ a ≤ ah) (hb : bl ≤ b ∧ b ≤ bh) (ht : tl ≤ t ∧ t ≤ th)
    (htl : 0 < tl) (hth : th ≤ 1) (hsl : sl * sl ≤ 4 + tl * tl)
    (hsh0 : 0 ≤ sh) (hsh : 4 + th * th ≤ sh * sh) (hths : th ≤ sl)
    (hnal : nal ≤ 98 / 100 * bl) (hnah : 98 / 100 * bh ≤ nah)
    (hntl : ntl ≤ 1 / 2 * tl * (sl - th)) (hnth : 1 / 2 * th * (sh - tl) ≤ nth)
    (hntl0 : 0 < ntl)
    (hwl : wl ≤ tl * (1 - th) / (th * th + nth))
    (hwh : th * (1 - tl) / (tl * tl + ntl) ≤ wh) (hwl0 : 0 ≤ wl)
    (hnbl : nbl ≤ nal + min (wl * (nal - ah)) (wh * (nal - ah)))
    (hnbh : nah + max (wl * (nah - al)) (wh * (nah - al)) ≤ nbh) :
    (nal ≤ b - 0.01 * (2 * b) ∧ b - 0.01 * (2 * b) ≤ nah) ∧
    (ntl ≤ 0.5 * t * (-t + √(4 + t * t)) ∧ 0.5 * t * (-t + √(4 + t * t)) ≤ nth) ∧
    (nbl ≤ (b - 0.01 * (2 * b))
        + (t * (1 - t) / (t * t + 0.5 * t * (-t + √(4 + t * t))))
          * ((b - 0.01 * (2 * b)) - a) ∧
      (b - 0.01 * (2 * b))
        + (t * (1 - t) / (t * t + 0.5 * t * (-t + √(4 + t * t))))
          * ((b - 0.01 * (2 * b)) - a) ≤ nbh) := by
  obtain ⟨ha1, ha2⟩ := ha
  obtain ⟨hb1, hb2⟩ := hb
  obtain ⟨ht1, ht2⟩ := ht
  have ht0 : 0 < t := lt_of_lt_of_le htl ht1
  have ht1' : t ≤ 1 := le_trans ht2 hth
  -- the new `a`
  have hA1 : nal ≤ b - 0.01 * (2 * b) := by norm_num; linarith
  have hA2 : b - 0.01 * (2 * b) ≤ nah := by norm_num; linarith
  -- the square root
  have htt1 : tl * tl ≤ t * t := mul_le_mul ht1 ht1 (le_of_lt htl) (le_of_lt ht0)
  have htt2 : t * t ≤ th * th := mul_le_mul ht2 ht2 (le_of_lt ht0) (le_trans (le_of_lt ht0) ht2)
  have hS1 : sl ≤ √(4 + t * t) := by
    apply Real.le_sqrt_of_sq_le
    rw [pow_two]
    linarith
  have hS2 : √(4 + t * t) ≤ sh := by
    rw [Real.sqrt_le_left hsh0, pow_two]
    linarith
  -- the new `t`
  have hd1 : 0 ≤ sl - th := by linarith
  have hd2 : sl - th ≤ -t + √(4 + t * t) := by linarith
  have hd3 : -t + √(4 + t * t) ≤ sh - tl := by linarith
  have hT1 : ntl ≤ 0.5 * t * (-t + √(4 + t * t)) := by
    have h := mul_le_mul ht1 hd2 hd1 (le_of_lt ht0)
    norm_num
    linarith
  have hT2 : 0.5 * t * (-t + √(4 + t * t)) ≤ nth := by
    have h := mul_le_mul ht2 hd3 (le_trans hd1 hd2) (le_trans (le_of_lt ht0) ht2)
    norm_num
    linarith
  -- the weight of the extrapolation
  have hnum1 : tl * (1 - th) ≤ t * (1 - t) :=
    mul_le_mul ht1 (by linarith) (by linarith) (le_of_lt ht0)
  have hnum2 : t * (1 - t) ≤ th * (1 - tl) :=
    mul_le_mul ht2 (by linarith) (by linarith) (by linarith)
  have hnum0 : 0 ≤ tl * (1 - th) := mul_nonneg (le_of_lt htl) (by linarith)
  have hden1 : tl * tl + ntl ≤ t * t + 0.5 * t * (-t + √(4 + t * t)) := add_le_add htt1 hT1
  have hden2 : t * t + 0.5 * t * (-t + √(4 + t * t)) ≤ th * th + nth := add_le_add htt2 hT2
  have hden0 : 0 < tl * tl + ntl := add_pos (mul_pos htl htl) hntl0
  have hW1 : wl ≤ t * (1 - t) / (t * t + 0.5 * t * (-t + √(4 + t * t))) :=
    le_trans hwl (div_le_div₀ (le_trans hnum0 hnum1) hnum1 (lt_of_lt_of_le hden0 hden1) hden2)
  have hW2 : t * (1 - t) / (t * t + 0.5 * t * (-t + √(4 + t * t))) ≤ wh :=
    le_trans (div_le_div₀ (le_trans (le_trans hnum0 hnum1) hnum2) hnum2 hden0 hden1) hwh
  generalize t * (1 - t) / (t * t + 0.5 * t * (-t + √(4 + t * t))) = w at hW1 hW2 ⊢
  generalize b - 0.01 * (2 * b) = a' at hA1 hA2 ⊢
  have hw0 : 0 ≤ w := le_trans hwl0 hW1
  refine ⟨⟨hA1, hA2⟩, ⟨hT1, hT2⟩, ?_, ?_⟩
  · have h1 : min (wl * (nal - ah)) (wh * (nal - ah)) ≤ w * (a' - a) := by
      rcases le_total 0 (nal - ah) with h | h
      · exact le_trans (min_le_left _ _)
          (mul_le_mul hW1 (by linarith) h hw0)
      · refine le_trans (min_le_right _ _) ?_
        have h2 : w * (nal - ah) ≤ w * (a' - a) := mul_le_mul_of_nonneg_left (by linarith) hw0
        have h3 : wh * (nal - ah) ≤ w * (nal - ah) := mul_le_mul_of_nonpos_right hW2 h
        linarith
    linarith
  · have h1 : w * (a' - a) ≤ max (wl * (nah - al)) (wh * (nah - al)) := by
      rcases le_total 0 (nah - al) with h | h
      · refine le_trans ?_ (le_max_right _ _)
        have h2 : w * (a' - a) ≤ w * (nah - al) := mul_le_mul_of_nonneg_left (by linarith) hw0
        have h3 : w * (nah - al) ≤ wh * (nah - al) := mul_le_mul_of_nonneg_right hW2 h
        linarith
      · refine le_trans ?_ (le_max_left _ _)
        have h2 : w * (a' - a) ≤ w * (nah - al) := mul_le_mul_of_nonneg_left (by linarith) hw0
        have h3 : w * (nah - al) ≤ wl * (nah - al) := mul_le_mul_of_nonpos_right hW1 h
        linarith
    linarith

/-- The bounds of `Quadratic.coefStep_bounds` with rational endpoints. -/
theorem Quadratic.coefStep_bounds_rat (a b t : ℝ)
    (al ah bl bh tl th sl sh nal nah ntl nth wl wh nbl nbh : ℚ)
    (ha : (al : ℝ) ≤ a ∧ a ≤ (ah : ℝ)) (hb : (bl : ℝ) ≤ b ∧ b ≤ (bh : ℝ))
    (ht : (tl : ℝ) ≤ t ∧ t ≤ (th : ℝ))
    (htl : 0 < tl) (hth : th ≤ 1) (hsl : sl * sl ≤ 4 + tl * tl)
    (hsh0 : 0 ≤ sh) (hsh : 4 + th * th ≤ sh * sh) (hths : th ≤ sl)
    (hnal : nal ≤ 98 / 100 * bl) (hnah : 98 / 100 * bh ≤ nah)
    (hntl : ntl ≤ 1 / 2 * tl * (sl - th)) (hnth : 1 / 2 * th * (sh - tl) ≤ nth)
    (hntl0 : 0 < ntl)
    (hwl : wl ≤ tl * (1 - th) / (th * th + nth))
    (hwh : th * (1 - tl) / (tl * tl + ntl) ≤ wh) (hwl0 : 0 ≤ wl)
    (hnbl : nbl ≤ nal + min (wl * (nal - ah)) (wh * (nal - ah)))
    (hnbh : nah + max (wl * (nah - al)) (wh * (nah - al)) ≤ nbh) :
    ((nal : ℝ) ≤ b - 0.01 * (2 * b) ∧ b - 0.01 * (2 * b) ≤ (nah : ℝ)) ∧
    ((ntl : ℝ) ≤ 0.5 * t * (-t + √(4 + t * t)) ∧ 0.5 * t * (-t + √(4 + t * t)) ≤ (nth : ℝ)) ∧
    ((nbl : ℝ) ≤ (b - 0.01 * (2 * b))
        + (t * (1 - t) / (t * t + 0.5 * t * (-t + √(4 + t * t))))
          * ((b - 0.01 * (2 * b)) - a) ∧
      (b - 0.01 * (2 * b))
        + (t * (1 - t) / (t * t + 0.5 * t * (-t + √(4 + t * t))))
          * ((b - 0.01 * (2 * b)) - a) ≤ (nbh : ℝ)) :=
  by
  have c1 : ((nal : ℚ) : ℝ) ≤ ((98 / 100 * bl : ℚ) : ℝ) := Rat.cast_le.mpr hnal
  have c2 : ((98 / 100 * bh : ℚ) : ℝ) ≤ ((nah : ℚ) : ℝ) := Rat.cast_le.mpr hnah
  have c3 : ((ntl : ℚ) : ℝ) ≤ ((1 / 2 * tl * (sl - th) : ℚ) : ℝ) := Rat.cast_le.mpr hntl
  have c4 : ((1 / 2 * th * (sh - tl) : ℚ) : ℝ) ≤ ((nth : ℚ) : ℝ) := Rat.cast_le.mpr hnth
  have c5 : ((wl : ℚ) : ℝ) ≤ ((tl * (1 - th) / (th * th + nth) : ℚ) : ℝ) :=
    Rat.cast_le.mpr hwl
  have c6 : ((th * (1 - tl) / (tl * tl + ntl) : ℚ) : ℝ) ≤ ((wh : ℚ) : ℝ) :=
    Rat.cast_le.mpr hwh
  have c7 : ((nbl : ℚ) : ℝ) ≤ ((nal + min (wl * (nal - ah)) (wh * (nal - ah)) : ℚ) : ℝ) :=
    Rat.cast_le.mpr hnbl
  have c8 : ((nah + max (wl * (nah - al)) (wh * (nah - al)) : ℚ) : ℝ) ≤ ((nbh : ℚ) : ℝ) :=
    Rat.cast_le.mpr hnbh
  have c9 : ((sl * sl : ℚ) : ℝ) ≤ ((4 + tl * tl : ℚ) : ℝ) := Rat.cast_le.mpr hsl
  have c10 : ((4 + th * th : ℚ) : ℝ) ≤ ((sh * sh : ℚ) : ℝ) := Rat.cast_le.mpr hsh
  push_cast at c1 c2 c3 c4 c5 c6 c7 c8 c9 c10
  exact Quadratic.coefStep_bounds a b t al ah bl bh tl th sl sh nal nah ntl nth wl wh nbl nbh
    ha hb ht (by exact_mod_cast htl) (by exact_mod_cast hth) c9
    (by exact_mod_cast hsh0) c10 (by exact_mod_cast hths) c1 c2 c3 c4
    (by exact_mod_cast hntl0) c5 c6 (by exact_mod_cast hwl0) c7 c8

/-- Soundness of one box step. -/
theorem Interval.Box.step_sound (B B' : Interval.Box) (s : ℝ × ℝ × ℝ)
    (h : B.step = some B') (hs : B.Contains s) :
    B'.Contains (Quadratic.coefStep Real.sqrt s) := by
  obtain ⟨a, b, t⟩ := s
  obtain ⟨ha1, ha2, hb1, hb2, ht1, ht2⟩ := hs
  simp only at ha1 ha2 hb1 hb2 ht1 ht2
  simp only [Interval.Box.step] at h
  split_ifs at h with hc htrig hno
  · obtain ⟨c1, c2, c3, c4, c5, c6, c7, c8, c9⟩ := hc
    obtain ⟨⟨hA1, hA2⟩, -, hB1, hB2⟩ := Quadratic.coefStep_bounds_rat a b t
      B.al B.ah B.bl B.bh B.tl B.th _ _ _ _ _ _ _ _ _ _
      ⟨ha1, ha2⟩ ⟨hb1, hb2⟩ ⟨ht1, ht2⟩ c1 c3 c4 c5 c6 c7
      (Interval.roundDown_le _) (Interval.le_roundUp _)
      (Interval.roundDown_le _) (Interval.le_roundUp _) c8
      (Interval.roundDown_le _) (Interval.le_roundUp _) c9
      (Interval.roundDown_le _) (Interval.le_roundUp _)
    have hB' := Option.some.inj h
    subst hB'
    have hpos : (b - 0.01 * (2 * b) - a) * (2 * b) > 0 := by
      rcases htrig with ⟨h1, h2⟩ | ⟨h1, h2⟩
      · have h1' : (0 : ℝ) < ((Interval.roundDown (98 / 100 * B.bl) - B.ah : ℚ) : ℝ) := by
          exact_mod_cast h1
        have h2' : (0 : ℝ) < (B.bl : ℝ) := by exact_mod_cast h2
        push_cast at h1'
        exact mul_pos (by linarith) (by linarith)
      · have h1' : ((Interval.roundUp (98 / 100 * B.bh) - B.al : ℚ) : ℝ) < 0 := by
          exact_mod_cast h1
        have h2' : (B.bh : ℝ) < 0 := by exact_mod_cast h2
        push_cast at h1'
        exact mul_pos_of_neg_of_neg (by linarith) (by linarith)
    simp only [Quadratic.coefStep, if_pos hpos, Interval.Box.Contains, Rat.cast_one, le_refl,
      and_self, and_true]
    exact ⟨hA1, hA2, hB1, hB2⟩
  · obtain ⟨c1, c2, c3, c4, c5, c6, c7, c8, c9⟩ := hc
    obtain ⟨⟨hA1, hA2⟩, ⟨hT1, hT2⟩, hB1, hB2⟩ := Quadratic.coefStep_bounds_rat a b t
      B.al B.ah B.bl B.bh B.tl B.th _ _ _ _ _ _ _ _ _ _
      ⟨ha1, ha2⟩ ⟨hb1, hb2⟩ ⟨ht1, ht2⟩ c1 c3 c4 c5 c6 c7
      (Interval.roundDown_le _) (Interval.le_roundUp _)
      (Interval.roundDown_le _) (Interval.le_roundUp _) c8
      (Interval.roundDown_le _) (Interval.le_roundUp _) c9
      (Interval.roundDown_le _) (Interval.le_roundUp _)
    have hB' := Option.some.inj h
    subst hB'
    have hneg : ¬ (b - 0.01 * (2 * b) - a) * (2 * b) > 0 := by
      rw [gt_iff_lt, not_lt]
      rcases hno with ⟨h1, h2⟩ | ⟨h1, h2⟩
      · have h1' : ((Interval.roundUp (98 / 100 * B.bh) - B.al : ℚ) : ℝ) ≤ 0 := by
          exact_mod_cast h1
        have h2' : (0 : ℝ) ≤ (B.bl : ℝ) := by exact_mod_cast h2
        push_cast at h1'
        exact mul_nonpos_of_nonpos_of_nonneg (by linarith) (by linarith)
      · have h1' : (0 : ℝ) ≤ ((Interval.roundDown (98 / 100 * B.bl) - B.ah : ℚ) : ℝ) := by
          exact_mod_cast h1
        have h2' : (B.bh : ℝ) ≤ 0 := by exact_mod_cast h2
        push_cast at h1'
        exact mul_nonpos_of_nonneg_of_nonpos (by linarith) (by linarith)
    simp only [Quadratic.coefStep, if_neg hneg, Interval.Box.Contains]
    exact ⟨hA1, hA2, hB1, hB2, hT1, hT2⟩

/-- Soundness of the iterated box step. -/
theorem Interval.Box.iter_sound (n : Nat) (B B' : Interval.Box) (s : ℝ × ℝ × ℝ)
    (h : Interval.Box.iter n B = some B') (hs : B.Contains s) :
    B'.Contains ((Quadratic.coefStep Real.sqrt)^[n] s) := by
  induction n generalizing B s with
  | zero =>
    have hB := Option.some.inj h
    subst hB
    exact hs
  | succ n ih =>
    rw [Interval.Box.iter] at h
    split at h
    · next B1 h1 =>
      rw [Function.iterate_succ_apply]
      exact ih B1 _ h (Interval.Box.step_sound B B1 s h1 hs)
    · exact absurd h (by simp)

set_option maxRecDepth 1000000 in
/-- The enclosure of the coefficient after 200 steps, checked by evaluation. -/
theorem Interval.Box.check_200 :
    Interval.Box.check 200 (-10362 / 10 ^ 15) (-10361 / 10 ^ 15) = true := by
  decide!

/-- The coefficient of `x` after 200 steps on the quadratic. -/
theorem Quadratic.coef_200 :
    (-10362 / 10 ^ 15 : ℝ) ≤ ((Quadratic.coefStep Real.sqrt)^[200] (1, 1, 1)).1 ∧
    ((Quadratic.coefStep Real.sqrt)^[200] (1, 1, 1)).1 ≤ (-10361 / 10 ^ 15 : ℝ) := by
  have h := Interval.Box.check_200
  rw [Interval.Box.check] at h
  split at h
  · next B hB =>
    have hc := Interval.Box.iter_sound 200 _ B (1, 1, 1) hB
      (by simp [Interval.Box.Contains])
    have hd := of_decide_eq_true h
    obtain ⟨h1, h2⟩ := hd
    have h1' : ((-10362 / 10 ^ 15 : ℚ) : ℝ) ≤ (B.al : ℝ) := Rat.cast_le.mpr h1
    have h2' : (B.ah : ℝ) ≤ ((-10361 / 10 ^ 15 : ℚ) : ℝ) := Rat.cast_le.mpr h2
    push_cast at h1' h2'
    exact ⟨le_trans h1' hc.1, le_trans hc.2.1 h2'⟩
  · exact absurd h (by simp)

/-- The components of `Quadratic.coefStep`. -/
theorem Quadratic.coefStep_eq {Value : Type} [LinearOrderedField Value] (sqrt : Value → Value)
    (c : Value × Value × Value) :
    (Quadratic.coefStep sqrt c).1 = c.2.1 - 0.01 * (2 * c.2.1) ∧
    (Quadratic.coefStep sqrt c).2.1 =
      (c.2.1 - 0.01 * (2 * c.2.1))
        + (c.2.2 * (1 - c.2.2)
            / (c.2.2 * c.2.2 + 0.5 * c.2.2 * (-c.2.2 + sqrt (4 + c.2.2 * c.2.2))))
          * ((c.2.1 - 0.01 * (2 * c.2.1)) - c.1) ∧
    (Quadratic.coefStep sqrt c).2.2 =
      if ((c.2.1 - 0.01 * (2 * c.2.1)) - c.1) * (2 * c.2.1) > 0 then 1
      else 0.5 * c.2.2 * (-c.2.2 + sqrt (4 + c.2.2 * c.2.2)) := by
  simp only [Quadratic.coefStep]
  split <;> exact ⟨rfl, rfl, rfl⟩

/-- On the quadratic, a state along the start point `x0` stays along `x0`, with
the coefficients of `Quadratic.coefStep`. -/
theorem Quadratic.step_along {Dimension : Nat} {Value : Type} [LinearOrderedField Value]
    (sqrt : Value → Value) (draws : Nat → Vector Dimension Value)
    (x0 : Vector Dimension Value) (hN : 0 < Matrix.dotProduct x0 x0)
    (s : Momentum Dimension Value) (c : Value × Value × Value)
    (hx : s.x = c.1 • x0) (hy : s.y = c.2.1 • x0) (ht : s.t = c.2.2) :
    (MPRAGD.step sqrt (quadraticProblem Dimension draws) s).x
        = (Quadratic.coefStep sqrt c).1 • x0 ∧
    (MPRAGD.step sqrt (quadraticProblem Dimension draws) s).y
        = (Quadratic.coefStep sqrt c).2.1 • x0 ∧
    (MPRAGD.step sqrt (quadraticProblem Dimension draws) s).t
        = (Quadratic.coefStep sqrt c).2.2 := by
  obtain ⟨h1, h2, h3⟩ := Quadratic.coefStep_eq sqrt c
  have hX : s.y - (0.01 : Value) • (quadraticProblem Dimension draws).gradient s.y
      = (c.2.1 - 0.01 * (2 * c.2.1)) • x0 := by
    simp only [quadraticProblem, hy, smul_smul, sub_smul]
  rw [MPRAGD.agd_step_x, MPRAGD.agd_step_y, MPRAGD.agd_step_t, hX, h1, h2, h3, hx, ht]
  refine ⟨rfl, ?_, ?_⟩
  · rw [← sub_smul, smul_smul, ← add_smul]
  · have hdot : Matrix.dotProduct ((c.2.1 - 0.01 * (2 * c.2.1)) • x0 - c.1 • x0)
        ((quadraticProblem Dimension draws).gradient s.y)
        = ((c.2.1 - 0.01 * (2 * c.2.1)) - c.1) * (2 * c.2.1) * Matrix.dotProduct x0 x0 := by
      simp only [quadraticProblem, hy, ← sub_smul, smul_smul, Matrix.smul_dotProduct,
        Matrix.dotProduct_smul, smul_eq_mul]
      ring
    rw [hdot]
    by_cases hp : ((c.2.1 - 0.01 * (2 * c.2.1)) - c.1) * (2 * c.2.1) > 0
    · rw [if_pos hp, if_pos (mul_pos hp hN)]
    · rw [if_neg hp, if_neg]
      intro h
      exact hp (pos_of_mul_pos_left h (le_of_lt hN))

/-- On the quadratic, the inner loop from `x0` ends on the state whose
coefficients along `x0` are the iterated `Quadratic.coefStep`. -/
theorem Quadratic.inner_along {Dimension : Nat} {Value : Type} [LinearOrderedField Value]
    (sqrt : Value → Value) (draws : Nat → Vector Dimension Value)
    (x0 : Vector Dimension Value) (hN : 0 < Matrix.dotProduct x0 x0) (n : Nat) (c : Calls) :
    (MPRAGD.inner sqrt (quadraticProblem Dimension draws) n x0 c).x
        = ((Quadratic.coefStep sqrt)^[n] (1, 1, 1)).1 • x0 ∧
    (MPRAGD.inner sqrt (quadraticProblem Dimension draws) n x0 c).y
        = ((Quadratic.coefStep sqrt)^[n] (1, 1, 1)).2.1 • x0 ∧
    (MPRAGD.inner sqrt (quadraticProblem Dimension draws) n x0 c).t
        = ((Quadratic.coefStep sqrt)^[n] (1, 1, 1)).2.2 := by
  induction n with
  | zero =>
    simp only [MPRAGD.inner, Function.iterate_zero, id_eq, one_smul, and_self]
  | succ n ih =>
    obtain ⟨hx, hy, ht⟩ := ih
    rw [MPRAGD.inner, Function.iterate_succ_apply', ← MPRAGD.inner,
      Function.iterate_succ_apply' (Quadratic.coefStep sqrt)]
    exact Quadratic.step_along sqrt draws x0 hN _ _ hx hy ht

/-- On the quadratic, the inner loop from the zero vector stays at zero. -/
theorem Quadratic.inner_zero {Dimension : Nat} {Value : Type} [LinearOrderedField Value]
    (sqrt : Value → Value) (draws : Nat → Vector Dimension Value) (n : Nat) (c : Calls) :
    (MPRAGD.inner sqrt (quadraticProblem Dimension draws) n 0 c).x = 0 ∧
    (MPRAGD.inner sqrt (quadraticProblem Dimension draws) n 0 c).y = 0 := by
  induction n with
  | zero => exact ⟨rfl, rfl⟩
  | succ n ih =>
    obtain ⟨hx, hy⟩ := ih
    rw [MPRAGD.inner, Function.iterate_succ_apply', ← MPRAGD.inner,
      MPRAGD.agd_step_x, MPRAGD.agd_step_y, hx, hy]
    simp [quadraticProblem]

/-- On the quadratic, the objective value of the candidate of a restart from
`x0` is the squared coefficient times the objective value of `x0`. -/
theorem Quadratic.candidate_value {Dimension : Nat} {Value : Type} [LinearOrderedField Value]
    (sqrt : Value → Value) (draws : Nat → Vector Dimension Value)
    (x0 : Vector Dimension Value) (n : Nat) :
    (quadraticProblem Dimension draws).function
        (MPRAGD.candidate sqrt (quadraticProblem Dimension draws) n x0)
      = ((Quadratic.coefStep sqrt)^[n] (1, 1, 1)).1 ^ 2 * Matrix.dotProduct x0 x0 := by
  by_cases hN : 0 < Matrix.dotProduct x0 x0
  · rw [MPRAGD.candidate, (Quadratic.inner_along sqrt draws x0 hN n Calls.none).1]
    simp only [quadraticProblem, Matrix.smul_dotProduct, Matrix.dotProduct_smul, smul_eq_mul]
    ring
  · have h0 : Matrix.dotProduct x0 x0 = 0 :=
      le_antisymm (not_lt.mp hN) (Finset.sum_nonneg (fun i _ => mul_self_nonneg (x0 i)))
    have hx0 : x0 = 0 := Matrix.dotProduct_self_eq_zero.mp h0
    subst hx0
    rw [MPRAGD.candidate, (Quadratic.inner_zero sqrt draws n Calls.none).1]
    simp [quadraticProblem]

/-- Remark on the bound of the dimension in `Quadratic.convergence`: in exact
arithmetic the returned value grows with the dimension, and at dimension
`10^17`, larger than any vector of doubles that fits in memory, with every
draw at the corner `(10, ..., 10)` of `[-10, 10]^d` it is at least `1e-3`. -/
theorem Quadratic.large_dimension :
    1 ≤ 10 ^ 17 ∧
    (∀ n i, -10 ≤ cornerDraws ℝ (10 ^ 17) n i ∧
      cornerDraws ℝ (10 ^ 17) n i ≤ 10) ∧
    ¬ (quadraticProblem (10 ^ 17) (cornerDraws ℝ (10 ^ 17))).function
      ((⟨5, 200⟩ : MultiplePointRestartAcceleratedGradientDescent).optimize Real.sqrt
        (quadraticProblem (10 ^ 17) (cornerDraws ℝ (10 ^ 17)))).1 < (1e-3 : ℝ) := by
  refine ⟨by norm_num, fun n i => by norm_num [cornerDraws], ?_⟩
  have hN : ∀ n, Matrix.dotProduct (cornerDraws ℝ (10 ^ 17) n)
      (cornerDraws ℝ (10 ^ 17) n) = 10 ^ 19 := by
    intro n
    simp only [Matrix.dotProduct, cornerDraws, Finset.sum_const, Finset.card_univ,
      Fintype.card_fin, nsmul_eq_mul]
    norm_num
  obtain ⟨j, -, hval, -, -⟩ :=
    MPRAGD.agd_loop_spec Real.sqrt (quadraticProblem (10 ^ 17) (cornerDraws ℝ (10 ^ 17))) 200 5
  rw [MultiplePointRestartAcceleratedGradientDescent.optimize, hval, not_lt,
    MPRAGD.contender]
  split
  · simp only [quadraticProblem]
    rw [hN 0]
    norm_num
  · rw [Quadratic.candidate_value]
    simp only [quadraticProblem]
    rw [hN j]
    obtain ⟨hA1, hA2⟩ := Quadratic.coef_200
    generalize ((Quadratic.coefStep Real.sqrt)^[200] (1, 1, 1)).1 = A at hA1 hA2
    have hA : (10361 / 10 ^ 15) ^ 2 ≤ A ^ 2 := by
      rw [← neg_sq A]
      exact pow_le_pow_left₀ (by norm_num) (by linarith) 2
    have hprod : ((10361 : ℝ) / 10 ^ 15) ^ 2 * 10 ^ 19 ≤ A ^ 2 * 10 ^ 19 :=
      mul_le_mul_of_nonneg_right hA (by positivity)
    refine le_trans ?_ hprod
    norm_num

/-! ### Zero restarts, stubs and names -/

/-- C11: zero-restart fallback.  For every number of steps, every problem and
every sequence of draws, accelerated gradient descent with zero restarts
returns exactly the first draw `s 0`; the log shows one draw and no call of
`function`, `gradient` or `ihessian`. -/
theorem MPRAGD.optimize_zero_restarts {Dimension : Nat} {Value : Type}
    [LinearOrderedField Value] (numRepetitions : Nat) (sqrt : Value → Value)
    (problem : Problem Dimension Value) :
    (⟨0, numRepetitions⟩ : MultiplePointRestartAcceleratedGradientDescent).optimize sqrt problem
      = (problem.randomPoint 0, ⟨1, 0, 0, 0⟩) := rfl

/-- C13: stub optimizers.  For every problem and every sequence of draws,
`SimulatedAnnealing.optimize` and `InteriorPointsMethod.optimize` each return
the first draw unchanged; the log shows exactly one draw and no call of
`function`, `gradient` or `ihessian`. -/
theorem stub_optimize {Dimension : Nat} {Value : Type} (problem : Problem Dimension Value) :
    SimulatedAnnealing.optimize problem = (problem.randomPoint 0, ⟨1, 0, 0, 0⟩) ∧
    InteriorPointsMethod.optimize problem = (problem.randomPoint 0, ⟨1, 0, 0, 0⟩) :=
  ⟨rfl, rfl⟩

/-- C14: distinct names.  Whatever the hyperparameters, every optimizer
returns its fixed name, the name of `GradientDescent` differs from the name of
accelerated gradient descent, and the names of the six optimizers are pairwise
distinct. -/
theorem getName_distinct (agd : MultiplePointRestartAcceleratedGradientDescent)
    (gd : GradientDescent) (newton : NewtonsMethod) (guess : RandomGuessing) :
    (agd.getName = "Stochastic Gradient Descent" ∧ gd.getName = "Gradient Descent" ∧
      SimulatedAnnealing.getName = "Simulated Annealing" ∧
      newton.getName = "Newton's Method" ∧
      InteriorPointsMethod.getName = "Interior Points Method" ∧
      guess.getName = "Random Guessing") ∧
    gd.getName ≠ agd.getName ∧
    [agd.getName, gd.getName, SimulatedAnnealing.getName, newton.getName,
      InteriorPointsMethod.getName, guess.getName].Nodup := by
  simp only [MultiplePointRestartAcceleratedGradientDescent.getName, GradientDescent.getName,
    SimulatedAnnealing.getName, NewtonsMethod.getName, InteriorPointsMethod.getName,
    RandomGuessing.getName]
  decide

/-! ### Newton iteration and ties -/

/-- The candidate of a restart of Newton's method is the start point with the
Newton update of the specification applied `n` times. -/
theorem NewtonsMethod.candidate_eq_newtonMap {Dimension : Nat} {Value : Type}
    [LinearOrderedField Value] (problem : Problem Dimension Value) (n : Nat)
    (x0 : Vector Dimension Value) :
    NewtonsMethod.candidate problem n x0 = (Spec.newtonMap problem)^[n] x0 := by
  induction n with
  | zero => rfl
  | succ n ih =>
    rw [NewtonsMethod.candidate] at ih ⊢
    rw [Function.iterate_succ_apply', Function.iterate_succ_apply', NewtonsMethod.newton_step_fst,
      ih]
    rfl

/-- C12: Newton iteration.  In every pass of the outer loop of Newton's method
the candidate compared against the best-so-far is the start draw with
`x ↦ x − ihessian(x) · gradient(x)` applied `numRepetitions` times, `ihessian`
and `gradient` being called `numRepetitions` times each; the best-so-far is
seeded by the draw `s 0` taken before the first pass, and pass `k + 1` starts
from the draw `s (k + 1)`. -/
theorem NewtonsMethod.newton_iteration {Dimension : Nat} {Value : Type}
    [LinearOrderedField Value] (problem : Problem Dimension Value) (n : Nat) :
    (∀ b : Vector Dimension Value × Calls,
      (NewtonsMethod.restart problem n b).1 =
        (if problem.function ((Spec.newtonMap problem)^[n] (problem.randomPoint b.2.randomPoint))
            < problem.function b.1
        then (Spec.newtonMap problem)^[n] (problem.randomPoint b.2.randomPoint) else b.1) ∧
      (NewtonsMethod.restart problem n b).2 =
        ⟨b.2.randomPoint + 1, b.2.function + 2, b.2.gradient + n, b.2.ihessian + n⟩) ∧
    (⟨0, n⟩ : NewtonsMethod).optimize problem = (problem.randomPoint 0, ⟨1, 0, 0, 0⟩) ∧
    (∀ k : Nat, (⟨k + 1, n⟩ : NewtonsMethod).optimize problem =
      NewtonsMethod.restart problem n ((⟨k, n⟩ : NewtonsMethod).optimize problem) ∧
      ((⟨k, n⟩ : NewtonsMethod).optimize problem).2.randomPoint = k + 1) := by
  refine ⟨fun b => ⟨?_, NewtonsMethod.newton_restart_calls problem n b⟩, rfl, fun k => ⟨?_, ?_⟩⟩
  · rw [NewtonsMethod.newton_restart_fst, NewtonsMethod.candidate_eq_newtonMap]
  · rw [NewtonsMethod.optimize, NewtonsMethod.optimize, Function.iterate_succ_apply']
  · rw [NewtonsMethod.optimize, NewtonsMethod.newton_loop_calls]

/-- In a best-of loop the seed is kept exactly when no later contender is
strictly better than it. -/
theorem bestOf_seed_iff {α Value : Type} [LinearOrder Value] (f : α → Value) (seq : Nat → α)
    (k : Nat) (r : α)
    (h : ∃ j, j ≤ k ∧ r = seq j ∧ (∀ i, i ≤ k → f (seq j) ≤ f (seq i)) ∧
      (∀ i, i < j → f (seq j) < f (seq i))) :
    r = seq 0 ↔ ∀ i, 1 ≤ i → i ≤ k → ¬ f (seq i) < f (seq 0) := by
  obtain ⟨j, hj, hr, hmin, hfirst⟩ := h
  constructor
  · intro h0 i _ hik
    rw [← h0, hr]
    exact not_lt.mpr (hmin i hik)
  · intro hno
    rcases Nat.eq_zero_or_pos j with h0 | hpos
    · rw [hr, h0]
    · exact absurd (hfirst 0 hpos) (hno j hpos hj)

/-- C18: the fallback wins ties.  For accelerated gradient descent and Newton's
method, for every problem, restart count `k` and sequence of draws, the
returned point is the contender `j ≤ k` of the list `s 0, candidate 1, ...,
candidate k` that is the earliest one of minimal objective value; and it is the
seed `s 0` if and only if no candidate has an objective value strictly smaller
than that of `s 0`. -/
theorem optimize_fallback_wins_ties {Dimension : Nat} {Value : Type} [LinearOrderedField Value]
    (sqrt : Value → Value) (problem : Problem Dimension Value) (k n : Nat) :
    ((∃ j, j ≤ k ∧
        ((⟨k, n⟩ : MultiplePointRestartAcceleratedGradientDescent).optimize sqrt problem).1
          = MPRAGD.contender sqrt problem n j ∧
        (∀ i, i ≤ k → problem.function (MPRAGD.contender sqrt problem n j)
          ≤ problem.function (MPRAGD.contender sqrt problem n i)) ∧
        (∀ i, i < j → problem.function (MPRAGD.contender sqrt problem n j)
          < problem.function (MPRAGD.contender sqrt problem n i))) ∧
      (((⟨k, n⟩ : MultiplePointRestartAcceleratedGradientDescent).optimize sqrt problem).1
          = problem.randomPoint 0 ↔
        ∀ i, 1 ≤ i → i ≤ k →
          ¬ problem.function (MPRAGD.candidate sqrt problem n (problem.randomPoint i))
            < problem.function (problem.randomPoint 0))) ∧
    ((∃ j, j ≤ k ∧
        ((⟨k, n⟩ : NewtonsMethod).optimize problem).1 = NewtonsMethod.contender problem n j ∧
        (∀ i, i ≤ k → problem.function (NewtonsMethod.contender problem n j)
          ≤ problem.function (NewtonsMethod.contender problem n i)) ∧
        (∀ i, i < j → problem.function (NewtonsMethod.contender problem n j)
          < problem.function (NewtonsMethod.contender problem n i))) ∧
      (((⟨k, n⟩ : NewtonsMethod).optimize problem).1 = problem.randomPoint 0 ↔
        ∀ i, 1 ≤ i → i ≤ k →
          ¬ problem.function (NewtonsMethod.candidate problem n (problem.randomPoint i))
            < problem.function (problem.randomPoint 0))) := by
  refine ⟨⟨MPRAGD.agd_loop_spec sqrt problem n k, ?_⟩,
    ⟨NewtonsMethod.newton_loop_spec problem n k, ?_⟩⟩
  · have h := bestOf_seed_iff problem.function (MPRAGD.contender sqrt problem n) k _
      (MPRAGD.agd_loop_spec sqrt problem n k)
    rw [MultiplePointRestartAcceleratedGradientDescent.optimize]
    refine h.trans ⟨fun hh i h1 h2 => ?_, fun hh i h1 h2 => ?_⟩
    · have h3 := hh i h1 h2
      have hi : ¬ i = 0 := by omega
      simpa only [MPRAGD.contender, if_neg hi, if_true] using h3
    · have h3 := hh i h1 h2
      have hi : ¬ i = 0 := by omega
      simpa only [MPRAGD.contender, if_neg hi, if_true] using h3
  · have h := bestOf_seed_iff problem.function (NewtonsMethod.contender problem n) k _
      (NewtonsMethod.newton_loop_spec problem n k)
    rw [NewtonsMethod.optimize]
    refine h.trans ⟨fun hh i h1 h2 => ?_, fun hh i h1 h2 => ?_⟩
    · have h3 := hh i h1 h2
      have hi : ¬ i = 0 := by omega
      simpa only [NewtonsMethod.contender, if_neg hi, if_true] using h3
    · have h3 := hh i h1 h2
      have hi : ¬ i = 0 := by omega
      simpa only [NewtonsMethod.contender, if_neg hi, if_true] using h3

/-! ### The momentum coefficient in exact real arithmetic -/

/-- Bounds on `√(4 + t²)` for `0 < t ≤ 1`: it lies strictly between `t` and
`2 + t`, and strictly above `2 - 3 t`. -/
theorem Spec.sqrt_bounds (t : ℝ) (h0 : 0 < t) (h1 : t ≤ 1) :
    t < √(4 + t ^ 2) ∧ √(4 + t ^ 2) < 2 + t ∧ 2 - 3 * t < √(4 + t ^ 2) := by
  refine ⟨?_, ?_, ?_⟩
  · apply Real.lt_sqrt_of_sq_lt
    linarith
  · rw [Real.sqrt_lt' (by linarith)]
    nlinarith
  · apply Real.lt_sqrt_of_sq_lt
    nlinarith

/-- The coefficient `t_new` solves `t_new² = (1 - t_new) t²`. -/
theorem Spec.tNew_sq (t : ℝ) :
    Spec.tNew Real.sqrt t ^ 2 = (1 - Spec.tNew Real.sqrt t) * t ^ 2 := by
  have hs : √(4 + t ^ 2) ^ 2 = 4 + t ^ 2 := Real.sq_sqrt (by positivity)
  rw [Spec.tNew]
  norm_num
  linear_combination (1 / 4 * t ^ 2) * hs

/-- For `0 < t ≤ 1` the coefficient `t_new` lies strictly between `0` and `t`,
the denominator `t² + t_new` is positive and the extrapolation weight lies in
`[0, 1)`. -/
theorem Spec.tNew_range (t : ℝ) (h0 : 0 < t) (h1 : t ≤ 1) :
    0 < Spec.tNew Real.sqrt t ∧ Spec.tNew Real.sqrt t < t ∧
    0 < t ^ 2 + Spec.tNew Real.sqrt t ∧
    0 ≤ t * (1 - t) / (t ^ 2 + Spec.tNew Real.sqrt t) ∧
    t * (1 - t) / (t ^ 2 + Spec.tNew Real.sqrt t) < 1 := by
  obtain ⟨hs1, hs2, hs3⟩ := Spec.sqrt_bounds t h0 h1
  have hT : Spec.tNew Real.sqrt t = 1 / 2 * t * (-t + √(4 + t ^ 2)) := by
    rw [Spec.tNew]
    norm_num
  have hpos : 0 < Spec.tNew Real.sqrt t := by
    rw [hT]
    exact mul_pos (by linarith) (by linarith)
  have hlt : Spec.tNew Real.sqrt t < t := by
    rw [hT]
    have h := mul_lt_mul_of_pos_left (show -t + √(4 + t ^ 2) < 2 by linarith) h0
    linarith
  have hden : 0 < t ^ 2 + Spec.tNew Real.sqrt t := by positivity
  refine ⟨hpos, hlt, hden, ?_, ?_⟩
  · exact div_nonneg (mul_nonneg (le_of_lt h0) (by linarith)) (le_of_lt hden)
  · rw [div_lt_one hden, hT]
    have h := mul_lt_mul_of_pos_left (show 2 - 4 * t < -t + √(4 + t ^ 2) by linarith) h0
    nlinarith

/-- The inner loop one pass further. -/
theorem MPRAGD.inner_succ {Dimension : Nat} {Value : Type} [LinearOrderedField Value]
    (sqrt : Value → Value) (problem : Problem Dimension Value) (n : Nat)
    (x0 : Vector Dimension Value) (c : Calls) :
    MPRAGD.inner sqrt problem (n + 1) x0 c
      = MPRAGD.step sqrt problem (MPRAGD.inner sqrt problem n x0 c) := by
  rw [MPRAGD.inner, Function.iterate_succ_apply', ← MPRAGD.inner]

/-- In exact real arithmetic the coefficient `t` of a restart stays in `(0, 1]`. -/
theorem MPRAGD.inner_t_range {Dimension : Nat} (problem : Problem Dimension ℝ) (n : Nat)
    (x0 : Vector Dimension ℝ) (c : Calls) :
    0 < (MPRAGD.inner Real.sqrt problem n x0 c).t ∧
      (MPRAGD.inner Real.sqrt problem n x0 c).t ≤ 1 := by
  induction n with
  | zero => exact ⟨one_pos, le_refl _⟩
  | succ n ih =>
    obtain ⟨h0, h1⟩ := ih
    obtain ⟨hpos, hlt, -, -, -⟩ := Spec.tNew_range _ h0 h1
    rw [MPRAGD.inner_succ, MPRAGD.agd_step_t, Spec.tNew_eq]
    split
    · exact ⟨one_pos, le_refl _⟩
    · exact ⟨hpos, le_trans (le_of_lt hlt) h1⟩

/-- C15: momentum coefficient invariant.  In exact real arithmetic, for every
problem, start point and number `n` of passes already made in a restart, the
coefficient `t` at the start of the next pass satisfies `0 < t ≤ 1`;
`t_new = 0.5 t (-t + sqrt(4 + t²))` satisfies `0 < t_new < t` and
`t_new² = (1 - t_new) t²`; the denominator `t² + t_new` of the extrapolation
weight is positive and the weight `t (1 - t) / (t² + t_new)` lies in `[0, 1)`. -/
theorem MPRAGD.momentum_invariant {Dimension : Nat} (problem : Problem Dimension ℝ) (n : Nat)
    (x0 : Vector Dimension ℝ) (c : Calls) :
    (0 < (MPRAGD.inner Real.sqrt problem n x0 c).t ∧
      (MPRAGD.inner Real.sqrt problem n x0 c).t ≤ 1) ∧
    (0 < Spec.tNew Real.sqrt (MPRAGD.inner Real.sqrt problem n x0 c).t ∧
      Spec.tNew Real.sqrt (MPRAGD.inner Real.sqrt problem n x0 c).t
        < (MPRAGD.inner Real.sqrt problem n x0 c).t) ∧
    Spec.tNew Real.sqrt (MPRAGD.inner Real.sqrt problem n x0 c).t ^ 2
      = (1 - Spec.tNew Real.sqrt (MPRAGD.inner Real.sqrt problem n x0 c).t)
        * (MPRAGD.inner Real.sqrt problem n x0 c).t ^ 2 ∧
    0 < (MPRAGD.inner Real.sqrt problem n x0 c).t ^ 2
      + Spec.tNew Real.sqrt (MPRAGD.inner Real.sqrt problem n x0 c).t ∧
    (0 ≤ (MPRAGD.inner Real.sqrt problem n x0 c).t
          * (1 - (MPRAGD.inner Real.sqrt problem n x0 c).t)
        / ((MPRAGD.inner Real.sqrt problem n x0 c).t ^ 2
          + Spec.tNew Real.sqrt (MPRAGD.inner Real.sqrt problem n x0 c).t) ∧
      (MPRAGD.inner Real.sqrt problem n x0 c).t
          * (1 - (MPRAGD.inner Real.sqrt problem n x0 c).t)
        / ((MPRAGD.inner Real.sqrt problem n x0 c).t ^ 2
          + Spec.tNew Real.sqrt (MPRAGD.inner Real.sqrt problem n x0 c).t) < 1) := by
  obtain ⟨h0, h1⟩ := MPRAGD.inner_t_range problem n x0 c
  obtain ⟨hpos, hlt, hden, hw0, hw1⟩ := Spec.tNew_range _ h0 h1
  exact ⟨⟨h0, h1⟩, ⟨hpos, hlt⟩, Spec.tNew_sq _, hden, hw0, hw1⟩

/-! ### The first pass, and constant gradients -/

/-- C16: the first accelerated step is a plain gradient step.  In exact real
arithmetic, for every problem and start point `x0`, after the first pass of the
inner loop `x = y = x0 - 0.01 gradient(x0)` and `t = (√5 - 1) / 2`; the
extrapolation weight is `0` because `t = 1`, and the restart trigger does not
fire because `(x_new - x0)ᵗ gradient(x0) = -0.01 ‖gradient(x0)‖² ≤ 0`. -/
theorem MPRAGD.first_step_plain {Dimension : Nat} (problem : Problem Dimension ℝ)
    (x0 : Vector Dimension ℝ) (c : Calls) :
    (MPRAGD.inner Real.sqrt problem 1 x0 c).x = x0 - (0.01 : ℝ) • problem.gradient x0 ∧
    (MPRAGD.inner Real.sqrt problem 1 x0 c).y = x0 - (0.01 : ℝ) • problem.gradient x0 ∧
    (MPRAGD.inner Real.sqrt problem 1 x0 c).t = (√5 - 1) / 2 ∧
    (1 : ℝ) * (1 - 1) / (1 * 1 + 0.5 * 1 * (-1 + √(4 + 1 * 1))) = 0 ∧
    Matrix.dotProduct ((x0 - (0.01 : ℝ) • problem.gradient x0) - x0) (problem.gradient x0)
      = -0.01 * Matrix.dotProduct (problem.gradient x0) (problem.gradient x0) ∧
    ¬ Matrix.dotProduct ((x0 - (0.01 : ℝ) • problem.gradient x0) - x0) (problem.gradient x0)
      > 0 := by
  have hdot : Matrix.dotProduct ((x0 - (0.01 : ℝ) • problem.gradient x0) - x0)
      (problem.gradient x0)
      = -0.01 * Matrix.dotProduct (problem.gradient x0) (problem.gradient x0) := by
    rw [sub_sub_cancel_left, Matrix.neg_dotProduct, Matrix.smul_dotProduct, smul_eq_mul, neg_mul]
  have hnn : 0 ≤ Matrix.dotProduct (problem.gradient x0) (problem.gradient x0) :=
    Finset.sum_nonneg (fun i _ => mul_self_nonneg (problem.gradient x0 i))
  have hno : ¬ Matrix.dotProduct ((x0 - (0.01 : ℝ) • problem.gradient x0) - x0)
      (problem.gradient x0) > 0 := by
    rw [hdot, gt_iff_lt, not_lt]
    norm_num
    exact hnn
  have h5 : (4 : ℝ) + 1 * 1 = 5 := by norm_num
  refine ⟨?_, ?_, ?_, by norm_num, hdot, hno⟩
  · rw [MPRAGD.inner_succ, MPRAGD.agd_step_x]
    rfl
  · rw [MPRAGD.inner_succ, MPRAGD.agd_step_y]
    simp [MPRAGD.inner]
  · rw [MPRAGD.inner_succ, MPRAGD.agd_step_t]
    simp only [MPRAGD.inner, Function.iterate_zero, id_eq]
    rw [if_neg hno, h5]
    norm_num
    ring

/-- With a constant gradient `g`, every pass of the inner loop moves `x` by
`-c g` for some `c ≥ 0.01`. -/
theorem MPRAGD.constant_gradient_move {Dimension : Nat} (problem : Problem Dimension ℝ)
    (g : Vector Dimension ℝ) (hg : ∀ x, problem.gradient x = g)
    (x0 : Vector Dimension ℝ) (c : Calls) (n : Nat) :
    ∃ cn : ℝ, 0.01 ≤ cn ∧
      (MPRAGD.inner Real.sqrt problem (n + 1) x0 c).x - (MPRAGD.inner Real.sqrt problem n x0 c).x
        = -(cn • g) := by
  induction n with
  | zero =>
    refine ⟨0.01, le_refl _, ?_⟩
    rw [MPRAGD.inner_succ, MPRAGD.agd_step_x, hg]
    simp [MPRAGD.inner]
  | succ n ih =>
    obtain ⟨cn, hcn, hmove⟩ := ih
    obtain ⟨h0, h1⟩ := MPRAGD.inner_t_range problem n x0 c
    obtain ⟨-, -, -, hw0, -⟩ := Spec.tNew_range _ h0 h1
    simp only [Spec.tNew, pow_two] at hw0
    have hy : (MPRAGD.inner Real.sqrt problem (n + 1) x0 c).y
        = (MPRAGD.inner Real.sqrt problem (n + 1) x0 c).x
          + ((MPRAGD.inner Real.sqrt problem n x0 c).t
              * (1 - (MPRAGD.inner Real.sqrt problem n x0 c).t)
              / ((MPRAGD.inner Real.sqrt problem n x0 c).t
                  * (MPRAGD.inner Real.sqrt problem n x0 c).t
                + 0.5 * (MPRAGD.inner Real.sqrt problem n x0 c).t
                  * (-(MPRAGD.inner Real.sqrt problem n x0 c).t
                    + √(4 + (MPRAGD.inner Real.sqrt problem n x0 c).t
                      * (MPRAGD.inner Real.sqrt problem n x0 c).t))))
            • ((MPRAGD.inner Real.sqrt problem (n + 1) x0 c).x
              - (MPRAGD.inner Real.sqrt problem n x0 c).x) := by
      rw [MPRAGD.inner_succ, MPRAGD.agd_step_y, MPRAGD.agd_step_x]
    generalize (MPRAGD.inner Real.sqrt problem n x0 c).t
        * (1 - (MPRAGD.inner Real.sqrt problem n x0 c).t)
        / ((MPRAGD.inner Real.sqrt problem n x0 c).t
            * (MPRAGD.inner Real.sqrt problem n x0 c).t
          + 0.5 * (MPRAGD.inner Real.sqrt problem n x0 c).t
            * (-(MPRAGD.inner Real.sqrt problem n x0 c).t
              + √(4 + (MPRAGD.inner Real.sqrt problem n x0 c).t
                * (MPRAGD.inner Real.sqrt problem n x0 c).t))) = w at hy hw0
    refine ⟨w * cn + 0.01, ?_, ?_⟩
    · have := mul_nonneg hw0 (le_trans (by norm_num) hcn)
      linarith
    · rw [MPRAGD.inner_succ Real.sqrt problem (n + 1), MPRAGD.agd_step_x, hg, hy, hmove]
      simp only [add_sub_cancel_left, smul_neg, smul_smul, add_smul]
      abel

/-- C17: a constant-gradient trace never restarts the momentum.  In exact real
arithmetic, for a gradient oracle returning the same vector `g` at every
point, for every start `x0` and every pass `n + 1` of a restart,
`x (n + 1) - x n = -c g` for some `c ≥ 0.01`; the trigger
`(x (n + 1) - x n)ᵗ g > 0` does not fire, `t` is not reset but becomes `t_new`,
and `t` strictly decreases. -/
theorem MPRAGD.constant_gradient_no_restart {Dimension : Nat}
    (problem : Problem Dimension ℝ) (g : Vector Dimension ℝ)
    (hg : ∀ x, problem.gradient x = g) (x0 : Vector Dimension ℝ) (c : Calls) (n : Nat) :
    (∃ cn : ℝ, 0.01 ≤ cn ∧
      (MPRAGD.inner Real.sqrt problem (n + 1) x0 c).x - (MPRAGD.inner Real.sqrt problem n x0 c).x
        = -(cn • g)) ∧
    ¬ Matrix.dotProduct
        ((MPRAGD.inner Real.sqrt problem (n + 1) x0 c).x
          - (MPRAGD.inner Real.sqrt problem n x0 c).x)
        (problem.gradient (MPRAGD.inner Real.sqrt problem n x0 c).y) > 0 ∧
    (MPRAGD.inner Real.sqrt problem (n + 1) x0 c).t
      = Spec.tNew Real.sqrt (MPRAGD.inner Real.sqrt problem n x0 c).t ∧
    (MPRAGD.inner Real.sqrt problem (n + 1) x0 c).t
      < (MPRAGD.inner Real.sqrt problem n x0 c).t := by
  obtain ⟨cn, hcn, hmove⟩ := MPRAGD.constant_gradient_move problem g hg x0 c n
  have hnn : 0 ≤ Matrix.dotProduct g g := Finset.sum_nonneg (fun i _ => mul_self_nonneg (g i))
  have hno : ¬ Matrix.dotProduct
      ((MPRAGD.inner Real.sqrt problem (n + 1) x0 c).x
        - (MPRAGD.inner Real.sqrt problem n x0 c).x)
      (problem.gradient (MPRAGD.inner Real.sqrt problem n x0 c).y) > 0 := by
    rw [hmove, hg, Matrix.neg_dotProduct, Matrix.smul_dotProduct, smul_eq_mul, gt_iff_lt, not_lt,
      neg_nonpos]
    exact mul_nonneg (le_trans (by norm_num) hcn) hnn
  obtain ⟨h0, h1⟩ := MPRAGD.inner_t_range problem n x0 c
  obtain ⟨-, hlt, -, -, -⟩ := Spec.tNew_range _ h0 h1
  have ht : (MPRAGD.inner Real.sqrt problem (n + 1) x0 c).t
      = Spec.tNew Real.sqrt (MPRAGD.inner Real.sqrt problem n x0 c).t := by
    have hx : (MPRAGD.inner Real.sqrt problem (n + 1) x0 c).x
        = (MPRAGD.inner Real.sqrt problem n x0 c).y
          - (0.01 : ℝ) • problem.gradient (MPRAGD.inner Real.sqrt problem n x0 c).y := by
      rw [MPRAGD.inner_succ, MPRAGD.agd_step_x]
    rw [hx] at hno
    rw [MPRAGD.inner_succ, MPRAGD.agd_step_t, if_neg hno, Spec.tNew_eq]
  refine ⟨⟨cn, hcn, hmove⟩, hno, ht, ?_⟩
  rw [ht]
  exact hlt

/-- Witness of C17: the constant gradient `(1)` in dimension one, first pass. -/
theorem MPRAGD.constant_gradient_no_restart_witness :
    (∀ x, (constantGradientProblem 1 (fun _ => (1 : ℝ)) (fun _ _ => 0)).gradient x
      = fun _ => (1 : ℝ)) ∧
    (MPRAGD.inner Real.sqrt (constantGradientProblem 1 (fun _ => (1 : ℝ)) (fun _ _ => 0)) 1
        (fun _ => 0) Calls.none).t
      < (MPRAGD.inner Real.sqrt (constantGradientProblem 1 (fun _ => (1 : ℝ)) (fun _ _ => 0)) 0
        (fun _ => 0) Calls.none).t :=
  ⟨fun _ => rfl,
    (MPRAGD.constant_gradient_no_restart
      (constantGradientProblem 1 (fun _ => (1 : ℝ)) (fun _ _ => 0)) (fun _ => 1)
      (fun _ => rfl) (fun _ => 0) Calls.none 0).2.2.2⟩

/-! ### Newton's method on a quadratic -/

/-- A symmetric matrix gives a symmetric bilinear form. -/
theorem Quadratic.form_symm {Value : Type} [LinearOrderedField Value] {Dimension : Nat}
    (A : Matrix (Fin Dimension) (Fin Dimension) Value) (hsymm : A.transpose = A)
    (u v : Vector Dimension Value) :
    Matrix.dotProduct u (Matrix.mulVec A v) = Matrix.dotProduct v (Matrix.mulVec A u) := by
  calc Matrix.dotProduct u (Matrix.mulVec A v)
      = Matrix.dotProduct (Matrix.vecMul u A) v := Matrix.dotProduct_mulVec u A v
    _ = Matrix.dotProduct (Matrix.mulVec A u) v := by
        rw [← Matrix.vecMul_transpose A u, hsymm]
    _ = Matrix.dotProduct v (Matrix.mulVec A u) := Matrix.dotProduct_comm _ _

/-- On the quadratic, one Newton update lands on `Ainv b` from every point. -/
theorem Quadratic.newtonMap_eq {Value : Type} [LinearOrderedField Value] {Dimension : Nat}
    (A Ainv : Matrix (Fin Dimension) (Fin Dimension) Value) (b : Vector Dimension Value)
    (draws : Nat → Vector Dimension Value) (hinv : Ainv * A = 1) (x : Vector Dimension Value) :
    Spec.newtonMap (quadraticFormProblem A Ainv b draws) x = Matrix.mulVec Ainv b := by
  simp only [Spec.newtonMap, quadraticFormProblem, Matrix.mulVec_sub, Matrix.mulVec_mulVec, hinv,
    Matrix.one_mulVec, sub_sub_cancel]

/-- On the quadratic, every restart candidate of Newton's method with at least
one step is `Ainv b`. -/
theorem Quadratic.newton_candidate {Value : Type} [LinearOrderedField Value] {Dimension : Nat}
    (A Ainv : Matrix (Fin Dimension) (Fin Dimension) Value) (b : Vector Dimension Value)
    (draws : Nat → Vector Dimension Value) (hinv : Ainv * A = 1) (n : Nat) (hn : 1 ≤ n)
    (x0 : Vector Dimension Value) :
    NewtonsMethod.candidate (quadraticFormProblem A Ainv b draws) n x0
      = Matrix.mulVec Ainv b := by
  obtain ⟨m, rfl⟩ : ∃ m, n = m + 1 := ⟨n - 1, by omega⟩
  rw [NewtonsMethod.candidate_eq_newtonMap, Function.iterate_succ_apply',
    Quadratic.newtonMap_eq A Ainv b draws hinv]

/-- On the quadratic with `A` symmetric positive definite, `Ainv b` is a global
minimum of the objective. -/
theorem Quadratic.form_min {Value : Type} [LinearOrderedField Value] {Dimension : Nat}
    (A Ainv : Matrix (Fin Dimension) (Fin Dimension) Value) (b : Vector Dimension Value)
    (draws : Nat → Vector Dimension Value) (hsymm : A.transpose = A)
    (hpos : ∀ x : Vector Dimension Value, x ≠ 0 → 0 < Matrix.dotProduct x (Matrix.mulVec A x))
    (hinv : Ainv * A = 1) (x : Vector Dimension Value) :
    (quadraticFormProblem A Ainv b draws).function (Matrix.mulVec Ainv b)
      ≤ (quadraticFormProblem A Ainv b draws).function x := by
  have hinv' : A * Ainv = 1 := Matrix.mul_eq_one_comm.mp hinv
  have hb : Matrix.mulVec A (Matrix.mulVec Ainv b) = b := by
    rw [Matrix.mulVec_mulVec, hinv', Matrix.one_mulVec]
  have he : 0 ≤ Matrix.dotProduct (x - Matrix.mulVec Ainv b)
      (Matrix.mulVec A (x - Matrix.mulVec Ainv b)) := by
    by_cases h0 : x - Matrix.mulVec Ainv b = 0
    · rw [h0, Matrix.mulVec_zero, Matrix.dotProduct_zero]
    · exact le_of_lt (hpos _ h0)
  have hsym := Quadratic.form_symm A hsymm (Matrix.mulVec Ainv b) x
  have hbx : Matrix.dotProduct b x = Matrix.dotProduct x b := Matrix.dotProduct_comm _ _
  simp only [Matrix.mulVec_sub, Matrix.dotProduct_sub, Matrix.sub_dotProduct, hb] at he hsym
  simp only [quadraticFormProblem, hb, hbx]
  rw [Matrix.dotProduct_comm b (Matrix.mulVec Ainv b)]
  linarith

/-- C19: Newton's method solves a quadratic in one step.  For
`function(x) = ½ xᵗAx − bᵗx` with `A` symmetric positive definite,
`gradient(x) = Ax − b` and `ihessian(x) = A⁻¹`, Newton's method with at least
one restart and at least one step returns, for every sequence of draws, a
point whose objective value equals `function(A⁻¹ b)`, which is the global
minimum, and every restart candidate equals `A⁻¹ b`. -/
theorem NewtonsMethod.quadratic_one_step {Value : Type} [LinearOrderedField Value]
    {Dimension : Nat} (A Ainv : Matrix (Fin Dimension) (Fin Dimension) Value)
    (b : Vector Dimension Value) (draws : Nat → Vector Dimension Value)
    (hsymm : A.transpose = A)
    (hpos : ∀ x : Vector Dimension Value, x ≠ 0 → 0 < Matrix.dotProduct x (Matrix.mulVec A x))
    (hinv : Ainv * A = 1) (k n : Nat) (hk : 1 ≤ k) (hn : 1 ≤ n) :
    (∀ x0, NewtonsMethod.candidate (quadraticFormProblem A Ainv b draws) n x0
      = Matrix.mulVec Ainv b) ∧
    (quadraticFormProblem A Ainv b draws).function
        ((⟨k, n⟩ : NewtonsMethod).optimize (quadraticFormProblem A Ainv b draws)).1
      = (quadraticFormProblem A Ainv b draws).function (Matrix.mulVec Ainv b) ∧
    (∀ x, (quadraticFormProblem A Ainv b draws).function (Matrix.mulVec Ainv b)
      ≤ (quadraticFormProblem A Ainv b draws).function x) := by
  refine ⟨Quadratic.newton_candidate A Ainv b draws hinv n hn, ?_,
    Quadratic.form_min A Ainv b draws hsymm hpos hinv⟩
  obtain ⟨j, -, hval, hmin, -⟩ :=
    NewtonsMethod.newton_loop_spec (quadraticFormProblem A Ainv b draws) n k
  have h1 := hmin 1 hk
  rw [← hval] at h1
  have hc : NewtonsMethod.contender (quadraticFormProblem A Ainv b draws) n 1
      = Matrix.mulVec Ainv b := by
    rw [NewtonsMethod.contender, if_neg (by norm_num)]
    exact Quadratic.newton_candidate A Ainv b draws hinv n hn _
  rw [hc] at h1
  rw [NewtonsMethod.optimize]
  exact le_antisymm h1 (Quadratic.form_min A Ainv b draws hsymm hpos hinv _)

/-- Witness of C19: `A` the identity in dimension two, `b = (3, 4)`, every
draw at the origin, two restarts of one step. -/
theorem NewtonsMethod.quadratic_one_step_witness :
    ((1 : Matrix (Fin 2) (Fin 2) ℚ).transpose = 1 ∧
      (∀ x : Vector 2 ℚ, x ≠ 0 →
        0 < Matrix.dotProduct x (Matrix.mulVec (1 : Matrix (Fin 2) (Fin 2) ℚ) x)) ∧
      (1 : Matrix (Fin 2) (Fin 2) ℚ) * 1 = 1 ∧ 1 ≤ 2 ∧ 1 ≤ 1) ∧
    (quadraticFormProblem 1 1 ![3, 4] (fun _ _ => (0 : ℚ))).function
        ((⟨2, 1⟩ : NewtonsMethod).optimize
          (quadraticFormProblem 1 1 ![3, 4] (fun _ _ => (0 : ℚ)))).1
      = (quadraticFormProblem 1 1 ![3, 4] (fun _ _ => (0 : ℚ))).function
        (Matrix.mulVec 1 ![3, 4]) :=
  have hpos : ∀ x : Vector 2 ℚ, x ≠ 0 →
      0 < Matrix.dotProduct x (Matrix.mulVec (1 : Matrix (Fin 2) (Fin 2) ℚ) x) := by
    intro x hx
    rw [Matrix.one_mulVec]
    exact lt_of_le_of_ne (Finset.sum_nonneg (fun i _ => mul_self_nonneg (x i)))
      (fun h => hx (Matrix.dotProduct_self_eq_zero.mp h.symm))
  ⟨⟨Matrix.transpose_one, hpos, one_mul 1, by decide, by decide⟩,
    (NewtonsMethod.quadratic_one_step 1 1 ![3, 4] (fun _ _ => (0 : ℚ)) Matrix.transpose_one
      hpos (one_mul 1) 2 1 (by decide) (by decide)).2.1⟩

end Optimizer
